import Mathlib

/-!
Verification of the `lingyue-common-base` utility library (src/clone.js and
src/dataFormat.js), a JavaScript number/date formatting and deep-cloning
library.

Modelling conventions (shallow embedding):

* JavaScript numbers are modelled by `JsNum`: either an exact decimal value
  `m * 10^e` with integer mantissa `m` and exponent `e` (`JsNum.fin`), or
  `NaN`, or an infinity.  Every IEEE double has a finite decimal expansion,
  and the model is faithful for every value whose shortest round-trip
  decimal representation (what JS `Number.prototype.toString` prints)
  coincides with its exact decimal expansion — which covers every literal
  appearing in the specification's test vectors.  The library's rounding
  algorithm works on decimal digit strings, which the model reproduces
  exactly; binary rounding of intermediate doubles is not modelled.
* JavaScript strings are modelled as `List Char` (`Chars`).
* `undefined`-vs-present distinctions that matter to the code (default
  parameters fire on `undefined`, truthiness tests) are modelled with
  `Option`.
* Mutation of caller-supplied option records (the only mutation in the
  formatting code) is modelled by returning the post-state of the record
  next to the result.
-/

abbrev Chars := List Char

/-- One decimal digit as a character. -/
def digitChar : Nat → Char
  | 0 => '0'
  | 1 => '1'
  | 2 => '2'
  | 3 => '3'
  | 4 => '4'
  | 5 => '5'
  | 6 => '6'
  | 7 => '7'
  | 8 => '8'
  | _ => '9'

/-- Decimal digits of a natural number, most significant first (fuelled). -/
def natDigitsAux : Nat → Nat → Chars
  | 0, _ => []
  | f + 1, n => if n < 10 then [digitChar n] else natDigitsAux f (n / 10) ++ [digitChar (n % 10)]

/-- Decimal digit string of a natural number (e.g. `natDigits 26 = "26"`). -/
def natDigits (n : Nat) : Chars := natDigitsAux (n + 1) n

/-- Decimal string of an integer, as JavaScript `Number.prototype.toString`
prints integral values (a leading `-` for negatives, no `+`). -/
def intChars (n : Int) : Chars :=
  if n < 0 then '-' :: natDigits n.natAbs else natDigits n.toNat

/-- An exact decimal number `m * 10^e`.  This is the carrier for finite
JavaScript numbers in the model (every IEEE double is of this form). -/
structure Dec where
  m : Int
  e : Int
deriving DecidableEq

/-- The rational value of a `Dec` (used in specifications only). -/
def Dec.toRat (x : Dec) : ℚ := (x.m : ℚ) * 10 ^ x.e

/-- Divide out trailing factors of 10 (fuelled): returns the stripped
number and how many factors were removed. -/
def stripTens : Nat → Nat → Nat × Nat
  | 0, m => (m, 0)
  | f + 1, m =>
    if m % 10 = 0 ∧ m ≠ 0 then
      let p := stripTens f (m / 10)
      (p.1, p.2 + 1)
    else (m, 0)

/-- Canonical form of `m * 10^e`: zero is `⟨0, 0⟩`, otherwise the mantissa
carries no trailing decimal zeros. -/
def Dec.norm (m e : Int) : Dec :=
  if m = 0 then ⟨0, 0⟩
  else
    let p := stripTens m.natAbs m.natAbs
    ⟨if m < 0 then -(p.1 : Int) else (p.1 : Int), e + p.2⟩

/-- A JavaScript number: an exact decimal, `NaN`, or an infinity. -/
inductive JsNum where
  | fin (x : Dec)
  | nan
  | inf
  | neginf
deriving DecidableEq

/-- A JavaScript value as passed to the formatters: a number, a string, a
boolean, `null`, `undefined`, or an opaque non-numeric object. -/
inductive JsVal where
  | num (x : JsNum)
  | str (s : Chars)
  | boolean (b : Bool)
  | nullv
  | undef
  | obj
deriving DecidableEq

/-- Mantissa sign and stripped digits and decimal-point position of a
nonzero `Dec`: `decSplit x = (neg, m', n)` with `|x| = m' * 10^(n - kd)`
where `kd` is the digit count of `m'` and `m'` has no trailing zeros. -/
def decSplit (x : Dec) : Bool × Nat × Int :=
  let p := stripTens x.m.natAbs x.m.natAbs
  (x.m < 0, p.1, x.e + p.2)

/-- Rendering step of ECMAScript `Number::toString` (radix 10) for a
nonzero finite value `±(m * 10^e)` with `m` free of trailing zeros: plain
digits when the decimal point position `n` satisfies `-6 < n ≤ 21`,
exponential notation otherwise. -/
def decFormat (neg : Bool) (m : Nat) (e : Int) : Chars :=
  let s := natDigits m
  let kd : Int := s.length
  let n : Int := kd + e
  let body :=
    if kd ≤ n ∧ n ≤ 21 then s ++ List.replicate (n - kd).toNat '0'
    else if 0 < n ∧ n ≤ 21 then s.take n.toNat ++ '.' :: s.drop n.toNat
    else if -6 < n ∧ n ≤ 0 then '0' :: '.' :: (List.replicate (-n).toNat '0' ++ s)
    else
      let mant := match s with
        | [] => s
        | c :: rest => if rest = [] then [c] else c :: '.' :: rest
      let ex := n - 1
      mant ++ 'e' :: (if ex < 0 then '-' else '+') :: natDigits ex.natAbs
  if neg then '-' :: body else body

/-- JavaScript `Number.prototype.toString` (radix 10) on the model. -/
def jsToString : JsNum → Chars
  | .nan => ("NaN").data
  | .inf => ("Infinity").data
  | .neginf => ("-Infinity").data
  | .fin x =>
    if x.m = 0 then [('0')]
    else
      match decSplit x with
      | (neg, m, e) => decFormat neg m e

/-- Numeric value of a digit character. -/
def charDigitVal (c : Char) : Nat := c.toNat - 48

/-- Value of a digit string read in base 10. -/
def digitsVal (s : Chars) : Nat := s.foldl (fun a c => a * 10 + charDigitVal c) 0

/-- Split a character list at the first digit/non-digit boundary. -/
def spanDigits (s : Chars) : Chars × Chars := (s.takeWhile Char.isDigit, s.dropWhile Char.isDigit)

/-- Strip an optional leading sign (`-` sets the negative flag, `+` is
consumed without effect). -/
def stripSign : Chars → Bool × Chars
  | [] => (false, [])
  | c :: t => if c = '-' then (true, t) else if c = '+' then (false, t) else (false, c :: t)

/-- Exponent-part tail of the ECMAScript `StringNumericLiteral` grammar:
an optional sign then at least one digit, consuming the whole rest of the
string (any trailing character makes the literal invalid, hence `NaN`). -/
def parseExpTail (neg : Bool) (ip fp : Chars) (r : Chars) : JsNum :=
  let (eneg, r1) := stripSign r
  let (ed, r2) := spanDigits r1
  if ed = [] ∨ r2 ≠ [] then .nan
  else
    let m : Int := digitsVal ip * 10 ^ fp.length + digitsVal fp
    let ex : Int := (if eneg then -(digitsVal ed : Int) else (digitsVal ed : Int)) - fp.length
    .fin (Dec.norm (if neg then -m else m) ex)

/-- JavaScript `Number(string)` on the fragment of the
`StringNumericLiteral` grammar the library can produce: optional sign, then
`Infinity`, or decimal digits with an optional fraction and exponent.  The
empty string yields `0`; anything else yields `NaN`.  (Whitespace trimming
and hex/octal/binary literals never arise from this code and are not
modelled.) -/
def parseNum (s : Chars) : JsNum :=
  match s with
  | [] => .fin ⟨0, 0⟩
  | _ =>
    let (neg, s1) := stripSign s
    if s1 = ("Infinity").data then (if neg then .neginf else .inf)
    else
      let (ip, r1) := spanDigits s1
      match r1 with
      | [] =>
        if ip = [] then .nan
        else .fin (Dec.norm (if neg then -(digitsVal ip : Int) else (digitsVal ip : Int)) 0)
      | '.' :: r2 =>
        let (fp, r3) := spanDigits r2
        if ip = [] ∧ fp = [] then .nan
        else
          match r3 with
          | [] =>
            let m : Int := digitsVal ip * 10 ^ fp.length + digitsVal fp
            .fin (Dec.norm (if neg then -m else m) (-(fp.length : Int)))
          | 'e' :: r4 => parseExpTail neg ip fp r4
          | 'E' :: r4 => parseExpTail neg ip fp r4
          | _ => .nan
      | 'e' :: r4 => if ip = [] then .nan else parseExpTail neg ip [] r4
      | 'E' :: r4 => if ip = [] then .nan else parseExpTail neg ip [] r4
      | _ => .nan

/-- `⌊m * 10^e + 1/2⌋` computed on integers (the value JavaScript
`Math.round` returns on a finite input). -/
def decRoundInt (m e : Int) : Int :=
  if 0 ≤ e then m * 10 ^ e.toNat
  else Int.ediv (2 * m + 10 ^ (-e).toNat) (2 * 10 ^ (-e).toNat)

/-- JavaScript `Math.round`: half rounds toward `+∞` (`⌊x + 1/2⌋`); `NaN`
and infinities pass through. -/
def jsRound : JsNum → JsNum
  | .fin x => .fin (Dec.norm (decRoundInt x.m x.e) 0)
  | x => x

/-- JavaScript `Math.abs` on the model. -/
def jsAbs : JsNum → JsNum
  | .fin x => .fin ⟨|x.m|, x.e⟩
  | .nan => .nan
  | _ => .inf

/-- `<` on two exact decimals, computed by aligning exponents. -/
def Dec.ltB (a b : Dec) : Bool :=
  let d := min a.e b.e
  decide (a.m * 10 ^ (a.e - d).toNat < b.m * 10 ^ (b.e - d).toNat)

/-- JavaScript `<` on numbers: any comparison with `NaN` is false. -/
def jsLtB : JsNum → JsNum → Bool
  | .fin a, .fin b => Dec.ltB a b
  | .nan, _ => false
  | _, .nan => false
  | .inf, _ => false
  | .neginf, .neginf => false
  | .neginf, _ => true
  | .fin _, .inf => true
  | .fin _, .neginf => false

/-- JavaScript `>` on numbers. -/
def jsGtB (a b : JsNum) : Bool := jsLtB b a

/-- Division by `10^k` — the only divisions `largeNumberFormat` performs
(its divisors are 1, 10000 and 100000000), exact on the model. -/
def jsDivPow10 : JsNum → Nat → JsNum
  | .fin x, k => .fin ⟨x.m, x.e - k⟩
  | x, _ => x

/-- Multiplication by `10^k` — `percentFormat`'s `* 100` is the only
multiplication in the library, exact on the model. -/
def jsMulPow10 : JsNum → Nat → JsNum
  | .fin x, k => .fin ⟨x.m, x.e + k⟩
  | x, _ => x

/-- JavaScript `x === 0` for a number `x` (no `-0` exists in the model). -/
def jsIsZero : JsNum → Bool
  | .fin x => decide (x.m = 0)
  | _ => false

/-- JavaScript truthiness of a possibly-missing boolean field (`undefined`
is falsy). -/
def truthy : Option Bool → Bool
  | some b => b
  | none => false

/-- The option record of `smallNumberFormat` (src/dataFormat.js:63):
`decimal`, `isRemoveExtraZero`, `isFillZeroInFront`.  `none` models an
absent (`undefined`) field. -/
structure SmallOption where
  decimal : Option JsNum
  isRemoveExtraZero : Option Bool
  isFillZeroInFront : Option Bool
deriving DecidableEq

/-- The option record of `largeNumberFormat` (src/dataFormat.js:92). -/
structure LargeOption where
  decimal : Option JsNum
  isRemoveExtraZero : Option Bool
  isSplitValueAndUnit : Option Bool
  isAttachThousandSymbol : Option Bool
deriving DecidableEq

/-- The structured form of `numberFormat`'s option: `small` and `large`
sub-records. -/
structure FormatOption where
  small : Option SmallOption
  large : Option LargeOption
deriving DecidableEq

/-- The result of a formatter: a plain value (a string, or the untouched
non-numeric input), or `largeNumberFormat`'s `{ value, unit }` record. -/
inductive JsOut where
  | val (v : JsVal)
  | vu (value : Chars) (unit : Chars)
deriving DecidableEq

/-- Floor of a nonnegative `Dec` as a natural number. -/
def Dec.floorNat (x : Dec) : Nat :=
  if 0 ≤ x.e then (x.m * 10 ^ x.e.toNat).toNat
  else (Int.ediv x.m (10 ^ (-x.e).toNat)).toNat

/-- The `decimal` parameter as `retainDecimal` normalises it
(src/dataFormat.js:144,149-151): an absent (`undefined`) argument takes the
default 2, and `isNaN(decimal) || decimal < 0` also coerces to 2.  A
`+Infinity` decimal would make the source throw a `RangeError` while
padding; it is modelled as 2 and is unreachable from the claims.  A valid
non-integral decimal would likewise throw in the padding branch; it is
modelled by its floor. -/
def effDecimal : Option JsNum → Nat
  | some (.fin d) => if d.m < 0 then 2 else d.floorNat
  | _ => 2

/-- First segment before a `'.'` and the segment between the first and
second `'.'` — exactly the `values[0]` / `values[1] || ''` pair the source
takes from `String.prototype.split('.')`. -/
def splitDot : Chars → Chars × Chars
  | [] => ([], [])
  | c :: t =>
    if c = '.' then ([], t.takeWhile (fun x => x ≠ '.'))
    else
      let p := splitDot t
      (c :: p.1, p.2)

/-- Core of `retainDecimal` (src/dataFormat.js:153-178) on a number, after
the `decimal` parameter has been normalised to a natural number `d`:
`decimal === 0` short-circuits to `Math.round(value).toString()`; otherwise
the value's decimal text is split at the point, the fraction is padded with
zeros up to `d` digits, the point is re-inserted after `d` digits, that
string is parsed and rounded, the point is placed `d` digits from the right
(zero-padding on the left when too short), and `isRemoveExtraZero` finally
round-trips the string through `Number(...).toString()`. -/
def retainDecimalNum (x : JsNum) (d : Nat) (rEZ : Bool) : Chars :=
  if d = 0 then jsToString (jsRound x)
  else
    let s := jsToString x
    let ip := (splitDot s).1
    let fp := (splitDot s).2
    let fp1 := if fp.length < d then fp ++ List.replicate (d - fp.length) '0' else fp
    let nv := jsRound (parseNum (ip ++ fp1.take d ++ '.' :: fp1.drop d))
    let v := jsToString nv
    let v1 :=
      if d < v.length then v.take (v.length - d) ++ '.' :: v.drop (v.length - d)
      else '0' :: '.' :: (List.replicate (d - v.length) '0' ++ v)
    if rEZ then jsToString (parseNum v1) else v1

/-- `retainDecimal(value, decimal = 2, isRemoveExtraZero = true)`
(src/dataFormat.js:144-179).  Non-numbers pass through unchanged.  `none`
arguments model `undefined`, on which the JS default parameters fire. -/
def retainDecimal (value : JsVal) (decimal : Option JsNum) (isRemoveExtraZero : Option Bool) : JsVal :=
  match value with
  | .num x => .str (retainDecimalNum x (effDecimal decimal) (isRemoveExtraZero.getD true))
  | v => v

/-- The string carried by a `.str` value (the formatters only use it where
the value is statically a string). -/
def strOf : JsVal → Chars
  | .str s => s
  | _ => []

/-- The `!(isNaN(option.decimal) || option.decimal < 0)` test of
`smallNumberFormat` (src/dataFormat.js:70): `undefined`, `NaN`, `-Infinity`
and negative values are invalid; nonnegative finite values and `+Infinity`
are valid. -/
def smallDecValid : Option JsNum → Bool
  | some (.fin d) => decide (0 ≤ d.m)
  | some .inf => true
  | _ => false

/-- `smallNumberFormat(value, option)` (src/dataFormat.js:63-80).  Returns
the result together with the post-state of the caller's option record: when
the caller passed a record whose `decimal` is invalid and the value is a
number, the source assigns `option.decimal = 8` into that record. -/
def smallNumberFormat (value : JsVal) (option : Option SmallOption) : JsVal × Option SmallOption :=
  match value with
  | .num x =>
    let opt := option.getD ⟨some (.fin ⟨8, 0⟩), some true, some false⟩
    let opt1 := if smallDecValid opt.decimal then opt else { opt with decimal := some (.fin ⟨8, 0⟩) }
    let fv := strOf (retainDecimal value opt1.decimal opt.isRemoveExtraZero)
    let fv1 := if truthy opt.isFillZeroInFront && jsLtB (jsAbs x) (.fin ⟨1, 1⟩) then '0' :: fv else fv
    (.str fv1, if option.isSome then some opt1 else option)
  | v => (v, option)

/-- Group a reversed digit string into blocks of three (fuelled). -/
def revGroupAux : Nat → Chars → Chars
  | 0, l => l
  | f + 1, l => if l.length ≤ 3 then l else l.take 3 ++ ',' :: revGroupAux f (l.drop 3)

/-- Insert thousands separators into a plain digit string. -/
def groupDigits (t : Chars) : Chars :=
  if t.all Char.isDigit then (revGroupAux t.length t.reverse).reverse else t

/-- `Number.prototype.toLocaleString` as the `en-US`-style default locale
renders an integral number: digits grouped in threes by `','`.  Only
integral values reach it in the source (it is applied to the integer part
of a decimal string); other shapes fall back to `toString`. -/
def jsToLocale (x : JsNum) : Chars :=
  match x with
  | .fin _ =>
    match jsToString x with
    | '-' :: t => '-' :: groupDigits t
    | t => groupDigits t
  | x => jsToString x

/-- The `isAttachThousandSymbol` step of `largeNumberFormat`
(src/dataFormat.js:121-127): split at the point, run the integer part
through `Number(...).toLocaleString()`, and re-attach the (unchanged)
decimal part — an empty decimal part (falsy `values[1]`) attaches nothing. -/
def attachThousand (v : Chars) : Chars :=
  let ip := (splitDot v).1
  let fp := (splitDot v).2
  jsToLocale (parseNum ip) ++ (if fp = [] then [] else '.' :: fp)

/-- `largeNumberFormat(value, option)` (src/dataFormat.js:92-135).  The
divisor starts at 1e8 (`亿`) and the two sequential
`if (absValue < divisor)` updates lower it to 1e4 (`万`) and then 1 (no
unit); the scaled value goes through `retainDecimal`, optionally gets
thousands separators, and is returned split or concatenated with the unit.
No argument is ever written to, so the option's post-state is the input. -/
def largeNumberFormat (value : JsVal) (option : Option LargeOption) : JsOut × Option LargeOption :=
  match value with
  | .num x =>
    let opt := option.getD ⟨some (.fin ⟨2, 0⟩), some true, some false, some false⟩
    let absValue := jsAbs x
    let p : Chars × Nat :=
      if jsLtB absValue (.fin ⟨1, 8⟩) then
        if jsLtB absValue (.fin ⟨1, 4⟩) then ([], 0) else (("万").data, 4)
      else (("亿").data, 8)
    let v := strOf (retainDecimal (.num (jsDivPow10 x p.2)) opt.decimal opt.isRemoveExtraZero)
    let v1 := if truthy opt.isAttachThousandSymbol then attachThousand v else v
    (if truthy opt.isSplitValueAndUnit then .vu v1 p.1 else .val (.str (v1 ++ p.1)), option)
  | v => (.val v, option)

/-- The three `typeof` shapes of `numberFormat`'s option argument: a bare
number, an object in structured form, or anything else (treated as empty
options). -/
inductive NFOption where
  | num (d : JsNum)
  | obj (fo : FormatOption)
  | other
deriving DecidableEq

/-- JavaScript `ToNumber` as `Math.abs` applies it to `numberFormat`'s
value argument: numbers pass through, strings are parsed, booleans and
`null` coerce to 0/1, `undefined` is `NaN`.  The opaque non-numeric object
is modelled as coercing to `NaN` (the typical case; the dispatch result is
irrelevant for non-numbers, which both branches pass through). -/
def toNumber : JsVal → JsNum
  | .num x => x
  | .str s => parseNum s
  | .boolean b => .fin ⟨if b then 1 else 0, 0⟩
  | .nullv => .fin ⟨0, 0⟩
  | .undef => .nan
  | .obj => .nan

/-- Post-state of `numberFormat`'s option argument: only a caller-supplied
`small` record can have been mutated (through `smallNumberFormat`); a bare
number or non-object option is the caller's immutable primitive. -/
def updateNF : NFOption → Option SmallOption → NFOption
  | .obj f, s => .obj ⟨if f.small.isSome then s else f.small, f.large⟩
  | o, _ => o

/-- `numberFormat(value, formatOption)` (src/dataFormat.js:26-54): a bare
number option expands to the structured form with that decimal for both
regimes, a non-object non-number option becomes `{}`; then
`Math.abs(value) < 10` dispatches to `smallNumberFormat` with
`formatOption.small || {}`, else to `largeNumberFormat` with
`formatOption.large || {}`. -/
def numberFormat (value : JsVal) (formatOption : NFOption) : JsOut × NFOption :=
  let fo : FormatOption :=
    match formatOption with
    | .num d => ⟨some ⟨some d, some true, some false⟩, some ⟨some d, some true, none, none⟩⟩
    | .obj f => f
    | .other => ⟨none, none⟩
  if jsLtB (jsAbs (toNumber value)) (.fin ⟨1, 1⟩) then
    let r := smallNumberFormat value (some (fo.small.getD ⟨none, none, none⟩))
    (.val r.1, updateNF formatOption r.2)
  else
    let r := largeNumberFormat value (some (fo.large.getD ⟨none, none, none, none⟩))
    (r.1, formatOption)

/-- `percentFormat(value, isAttachSymbol = true)` (src/dataFormat.js:187-205):
sign prefix for nonzero values when attached, then
`retainDecimal(Math.abs(value) * 100, 2)`, then `'%'`. -/
def percentFormat (value : JsVal) (isAttachSymbol : Option Bool) : JsVal :=
  let attach := isAttachSymbol.getD true
  match value with
  | .num x =>
    let symbol : Chars :=
      if attach && !jsIsZero x then (if jsGtB x (.fin ⟨0, 0⟩) then [('+')] else [('-')]) else []
    let v := strOf (retainDecimal (.num (jsMulPow10 (jsAbs x) 2)) (some (.fin ⟨2, 0⟩)) none)
    .str (symbol ++ v ++ [('%')])
  | v => v

/-- Does `pat` occur at the head of `s`? -/
def matchesAt : Chars → Chars → Bool
  | [], _ => true
  | _ :: _, [] => false
  | p :: ps, c :: cs => p = c && matchesAt ps cs

/-- JavaScript `String.prototype.replace` with a plain (non-regex) pattern
string: replace the first occurrence only; no occurrence leaves the string
unchanged.  (`$`-substitutions never arise: every replacement the source
passes is a digit/`NaN` string.) -/
def replaceFirstL (pat r : Chars) : Chars → Chars
  | [] => []
  | c :: cs => if matchesAt pat (c :: cs) then r ++ (c :: cs).drop pat.length else c :: replaceFirstL pat r cs

/-- Truncation toward zero of a `Dec` (ECMAScript `ToIntegerOrInfinity` as
the `Date` constructor applies it to the millisecond timestamp). -/
def Dec.truncInt (x : Dec) : Int :=
  if 0 ≤ x.e then x.m * 10 ^ x.e.toNat else Int.tdiv x.m (10 ^ (-x.e).toNat)

/-- Proleptic Gregorian calendar date from a day number (days since
1970-01-01): `(year, month 1..12, day 1..31)`. -/
def civilFromDays (z0 : Int) : Int × Int × Int :=
  let z := z0 + 719468
  let era := Int.ediv z 146097
  let doe := z - era * 146097
  let yoe := Int.ediv (doe - Int.ediv doe 1460 + Int.ediv doe 36524 - Int.ediv doe 146096) 365
  let y := yoe + era * 400
  let doy := doe - (365 * yoe + Int.ediv yoe 4 - Int.ediv yoe 100)
  let mp := Int.ediv (5 * doy + 2) 153
  let dd := doy - Int.ediv (153 * mp + 2) 5 + 1
  let mo := mp + (if mp < 10 then 3 else -9)
  (y + (if mo ≤ 2 then 1 else 0), mo, dd)

/-- The raw calendar fields `datetimeFormat` reads from `new Date(value)`
(src/dataFormat.js:218-226): full year, 1-based month, day, hours, minutes,
seconds.  The host's local time zone is modelled as UTC.  A non-finite or
out-of-range timestamp gives an Invalid Date, whose getters all return
`NaN`. -/
structure DtFields where
  yyyy : JsNum
  M : JsNum
  d : JsNum
  h : JsNum
  m : JsNum
  s : JsNum

/-- Field extraction for `new Date(x)` under the UTC-local-time model. -/
def dtFields (x : JsNum) : DtFields :=
  match x with
  | .fin q =>
    let t := q.truncInt
    if t.natAbs ≤ 8640000000000000 then
      let days := Int.ediv t 86400000
      let msod := Int.emod t 86400000
      let c := civilFromDays days
      ⟨.fin ⟨c.1, 0⟩, .fin ⟨c.2.1, 0⟩, .fin ⟨c.2.2, 0⟩,
       .fin ⟨Int.ediv msod 3600000, 0⟩,
       .fin ⟨Int.emod (Int.ediv msod 60000) 60, 0⟩,
       .fin ⟨Int.emod (Int.ediv msod 1000) 60, 0⟩⟩
    else ⟨.nan, .nan, .nan, .nan, .nan, .nan⟩
  | _ => ⟨.nan, .nan, .nan, .nan, .nan, .nan⟩

/-- The two-digit form of a field: `smallNumberFormat(time, { decimal: 0,
isFillZeroInFront: true })` (src/dataFormat.js:229-232). -/
def dtPadded (x : JsNum) : Chars :=
  strOf (smallNumberFormat (.num x) (some ⟨some (.fin ⟨0, 0⟩), none, some true⟩)).1

/-- The twelve replacement strings of `datetimeFormat`, in the source's
`datetime` record: the four-digit year, the zero-padded two-character
forms, `yy` as `year.toString().substr(2)`, and the plain one-character
forms (numbers, coerced to strings by `String.prototype.replace`). -/
structure DtStrings where
  yyyy : Chars
  MM : Chars
  dd : Chars
  hh : Chars
  mm : Chars
  ss : Chars
  yy : Chars
  M : Chars
  d : Chars
  h : Chars
  m : Chars
  s : Chars

/-- Replacement strings for a given timestamp. -/
def dtStrings (x : JsNum) : DtStrings :=
  let f := dtFields x
  ⟨jsToString f.yyyy, dtPadded f.M, dtPadded f.d, dtPadded f.h, dtPadded f.m, dtPadded f.s,
   (jsToString f.yyyy).drop 2, jsToString f.M, jsToString f.d, jsToString f.h,
   jsToString f.m, jsToString f.s⟩

/-- The source's substitution order (src/dataFormat.js:236): full tokens
first, then the one-character tokens. -/
def dtSteps (t : DtStrings) : List (Chars × Chars) :=
  [(("yyyy").data, t.yyyy), (("MM").data, t.MM), (("dd").data, t.dd), (("hh").data, t.hh),
   (("mm").data, t.mm), (("ss").data, t.ss), (("yy").data, t.yy), (("M").data, t.M),
   (("d").data, t.d), (("h").data, t.h), (("m").data, t.m), (("s").data, t.s)]

/-- `datetimeFormat(value, express = 'yyyyMMdd hh:mm:ss')`
(src/dataFormat.js:213-240): non-numbers pass through; otherwise each token
is replaced (first occurrence only) in the order `yyyy, MM, dd, hh, mm, ss,
yy, M, d, h, m, s`. -/
def datetimeFormat (value : JsVal) (express : Option Chars) : JsVal :=
  let pat := express.getD (("yyyyMMdd hh:mm:ss").data)
  match value with
  | .num x =>
    .str ((dtSteps (dtStrings x)).foldl (fun acc kv => replaceFirstL kv.1 kv.2 acc) pat)
  | v => v

/-- A JSON-like value tree for `clone` (src/clone.js): `null`, booleans,
numbers, strings, function references (identified by `fid` — reference
identity is what the claim is about), arrays and plain objects.  Containers
carry an allocation address `addr`, so that "reference-distinct from the
source" is expressible: `JSON.parse` allocates fresh addresses. -/
inductive JVal where
  | null
  | boolv (b : Bool)
  | num (x : Dec)
  | str (s : String)
  | fn (fid : Nat)
  | arr (addr : Nat) (elems : List JVal)
  | obj (addr : Nat) (props : List (String × JVal))

/-- Lookup in an object's (insertion-ordered) property list. -/
def getProp : List (String × JVal) → String → Option JVal
  | [], _ => none
  | (k, v) :: ps, key => if k = key then some v else getProp ps key

/-- JavaScript property assignment on a property list: overwrite in place,
or append a new property at the end. -/
def setProp : List (String × JVal) → String → JVal → List (String × JVal)
  | [], key, v => [(key, v)]
  | (k, w) :: ps, key, v => if k = key then (k, v) :: ps else (k, w) :: setProp ps key v

/-- `target[key]` where `target` is an object (the only shape at which the
clone pass reads a string key). -/
def getKeyT : JVal → String → Option JVal
  | .obj _ ps, k => getProp ps k
  | _, _ => none

/-- `target[key] = v` on an object target. -/
def setKeyT : JVal → String → JVal → JVal
  | .obj a ps, k, v => .obj a (setProp ps k v)
  | t, _, _ => t

/-- `target[i]` on an array target. -/
def getIdxT : JVal → Nat → Option JVal
  | .arr _ es, i => es[i]?
  | _, _ => none

/-- `target[i] = v` on an array target. -/
def setIdxT : JVal → Nat → JVal → JVal
  | .arr a es, i, v => .arr a (es.set i v)
  | t, _, _ => t

mutual
/-- `JSON.parse(JSON.stringify(v))` with an address supply `n` for the
freshly parsed containers: function-valued object properties are dropped,
function array elements become `null`, a top-level function serialises to
`undefined` and makes `JSON.parse` throw (`none`). -/
def rtV : JVal → Nat → Option (JVal × Nat)
  | .fn _, _ => none
  | .arr _ es, n =>
    let p := rtArr es (n + 1)
    some (.arr n p.1, p.2)
  | .obj _ ps, n =>
    let p := rtObj ps (n + 1)
    some (.obj n p.1, p.2)
  | v, n => some (v, n)
termination_by structural v _ => v

/-- Round trip of an array's element list (function elements to `null`). -/
def rtArr : List JVal → Nat → List JVal × Nat
  | [], n => ([], n)
  | e :: es, n =>
    let h := match rtV e n with
      | none => (JVal.null, n)
      | some p => p
    let t := rtArr es h.2
    (h.1 :: t.1, t.2)
termination_by structural es _ => es

/-- Round trip of a property list (function properties dropped). -/
def rtObj : List (String × JVal) → Nat → List (String × JVal) × Nat
  | [], n => ([], n)
  | (k, v) :: ps, n =>
    match rtV v n with
    | none => rtObj ps n
    | some p =>
      let t := rtObj ps p.2
      ((k, p.1) :: t.1, t.2)
termination_by structural ps _ => ps
end

mutual
/-- `processPropertyIsFunction(source, target)` (src/clone.js:6-27),
returning the mutated target: a no-op on non-objects and `null`; on an
object or array it walks the enumerable own properties of the source —
function values are assigned onto the target, array values are walked
element-wise with `forEach` (recursing into each element), and other object
values are recursed into. -/
def ppf : JVal → JVal → JVal
  | .obj _ ps, t => ppfProps ps t
  | .arr _ es, t => ppfIdx 0 es t
  | _, t => t
termination_by structural s _ => s

/-- The `for (const key in source)` loop over an object's properties. -/
def ppfProps : List (String × JVal) → JVal → JVal
  | [], t => t
  | (k, v) :: ps, t =>
    let t1 := match v with
      | .fn fid => setKeyT t k (.fn fid)
      | .arr _ es =>
        match getKeyT t k with
        | some tv => setKeyT t k (ppfElems 0 es tv)
        | none => t
      | .obj _ ops =>
        match getKeyT t k with
        | some tv => setKeyT t k (ppfProps ops tv)
        | none => t
      | _ => t
    ppfProps ps t1
termination_by structural ps _ => ps

/-- The `for (const key in source)` loop when the source is an array:
`for...in` enumerates the indices, so the same per-value dispatch runs with
index keys (in particular a function element IS assigned here). -/
def ppfIdx : Nat → List JVal → JVal → JVal
  | _, [], t => t
  | i, v :: vs, t =>
    let t1 := match v with
      | .fn fid => setIdxT t i (.fn fid)
      | .arr _ es =>
        match getIdxT t i with
        | some tv => setIdxT t i (ppfElems 0 es tv)
        | none => t
      | .obj _ ops =>
        match getIdxT t i with
        | some tv => setIdxT t i (ppfProps ops tv)
        | none => t
      | _ => t
    ppfIdx (i + 1) vs t1
termination_by structural _ vs _ => vs

/-- The `value.forEach((item, index) => processPropertyIsFunction(item,
target[key][index]))` branch: each item is recursed into directly — note
that, unlike `ppfIdx`, a function item is NOT assigned (the recursive call
returns immediately on a non-object), which is how function elements of a
property-valued array get lost. -/
def ppfElems : Nat → List JVal → JVal → JVal
  | _, [], t => t
  | i, v :: vs, t =>
    let t1 := match getIdxT t i with
      | some tv => setIdxT t i (ppf v tv)
      | none => t
    ppfElems (i + 1) vs t1
termination_by structural _ vs _ => vs
end

/-- The default export of src/clone.js: serialise, re-parse (with fresh
addresses from `n`), then re-attach function properties. -/
def clone (n : Nat) (source : JVal) : Option JVal :=
  match rtV source n with
  | none => none
  | some p => some (ppf source p.1)

mutual
/-- Well-formedness of a source value as a JavaScript object graph: every
object's keys are distinct (a JS object cannot carry duplicate keys). -/
def wfV : JVal → Bool
  | .obj _ ps => wfProps ps
  | .arr _ es => wfElems es
  | _ => true
termination_by structural v => v

/-- Key-distinctness for a property list. -/
def wfProps : List (String × JVal) → Bool
  | [] => true
  | (k, v) :: ps => !(ps.map Prod.fst).contains k && wfV v && wfProps ps
termination_by structural ps => ps

/-- Well-formedness for an element list. -/
def wfElems : List JVal → Bool
  | [] => true
  | v :: vs => wfV v && wfElems vs
termination_by structural es => es
end

/-- Is a value a function? -/
def isFnB : JVal → Bool
  | .fn _ => true
  | _ => false

mutual
/-- No function value occurs as a direct element of any array (the domain
on which the amended C1 claim restores every function). -/
def nafV : JVal → Bool
  | .obj _ ps => nafProps ps
  | .arr _ es => nafElems es
  | _ => true
termination_by structural v => v

/-- `nafV` over a property list. -/
def nafProps : List (String × JVal) → Bool
  | [] => true
  | (_, v) :: ps => nafV v && nafProps ps
termination_by structural ps => ps

/-- `nafV` over an element list: no element is a function. -/
def nafElems : List JVal → Bool
  | [] => true
  | v :: vs => !isFnB v && nafV v && nafElems vs
termination_by structural es => es
end

/-- The function-valued properties of a property list, in order. -/
def fnPropsOf (ps : List (String × JVal)) : List (String × JVal) :=
  ps.filter (fun kv => isFnB kv.2)

mutual
/-- Modelled from the amended claim: the structural clone it promises.
Primitives are kept value-equal, function references are kept identical,
containers are rebuilt with fresh addresses drawn from the supply; an
object's function-valued properties end up appended after its other
properties (they are dropped by serialisation and re-assigned last). -/
def csV : JVal → Nat → JVal × Nat
  | .arr _ es, n =>
    let p := csArr es (n + 1)
    (.arr n p.1, p.2)
  | .obj _ ps, n =>
    let p := csProps ps (n + 1)
    (.obj n (p.1 ++ fnPropsOf ps), p.2)
  | v, n => (v, n)
termination_by structural v _ => v

/-- `csV` over an element list. -/
def csArr : List JVal → Nat → List JVal × Nat
  | [], n => ([], n)
  | e :: es, n =>
    let h := csV e n
    let t := csArr es h.2
    (h.1 :: t.1, t.2)
termination_by structural es _ => es

/-- `csV` over a property list: non-function values in order (function
properties are appended by `csV` afterwards). -/
def csProps : List (String × JVal) → Nat → List (String × JVal) × Nat
  | [], n => ([], n)
  | (k, v) :: ps, n =>
    if isFnB v then csProps ps n
    else
      let h := csV v n
      let t := csProps ps h.2
      ((k, h.1) :: t.1, t.2)
termination_by structural ps _ => ps
end

/-- Modelled from the amended claim: the expected overall clone — `none`
exactly for a top-level function (where `JSON.parse` throws). -/
def cloneSpec (n : Nat) (source : JVal) : Option JVal :=
  match source with
  | .fn _ => none
  | v => some (csV v n).1

mutual
/-- All container addresses occurring in a value. -/
def adV : JVal → List Nat
  | .arr a es => a :: adElems es
  | .obj a ps => a :: adProps ps
  | _ => []
termination_by structural v => v

/-- Addresses in an element list. -/
def adElems : List JVal → List Nat
  | [] => []
  | v :: vs => adV v ++ adElems vs
termination_by structural es => es

/-- Addresses in a property list. -/
def adProps : List (String × JVal) → List Nat
  | [] => []
  | (_, v) :: ps => adV v ++ adProps ps
termination_by structural ps => ps
end

def keysOf (ps : List (String × JVal)) : List String := ps.map Prod.fst

/-- The induction statement for C1: on a well-formed source with no
function directly inside an array, the JSON round trip succeeds with the
same address consumption as the claimed clone, and the reattachment pass
turns the round-tripped value into exactly the claimed clone. -/
def MainS (v : JVal) : Prop :=
  ∀ n : Nat, wfV v = true → nafV v = true → (∀ i, v ≠ .fn i) →
    ∃ R, rtV v n = some (R, (csV v n).2) ∧ ppf v R = (csV v n).1

/-! ### Helper lemmas about the decimal number model -/

theorem q10_pos : (0 : ℚ) < 10 := by norm_num

theorem zpow10_pos (e : Int) : (0 : ℚ) < 10 ^ e := zpow_pos q10_pos e

/-- Aligning a `Dec` onto a smaller exponent `d`. -/
theorem Dec.toRat_align (x : Dec) (d : Int) (h : d ≤ x.e) :
    x.toRat = ((x.m * 10 ^ (x.e - d).toNat : Int) : ℚ) * 10 ^ d := by
  have h0 : ((x.e - d).toNat : Int) = x.e - d := Int.toNat_of_nonneg (by omega)
  have : ((10 : ℚ) ^ (x.e - d).toNat) = (10 : ℚ) ^ (x.e - d) := by
    rw [← zpow_natCast, h0]
  push_cast
  rw [this, mul_assoc, ← zpow_add₀ (by norm_num : (10 : ℚ) ≠ 0)]
  simp [Dec.toRat]

/-- `Dec.ltB` decides the rational order. -/
theorem Dec.ltB_iff (a b : Dec) : Dec.ltB a b = true ↔ a.toRat < b.toRat := by
  unfold Dec.ltB
  rw [decide_eq_true_iff]
  rw [Dec.toRat_align a (min a.e b.e) (min_le_left _ _),
    Dec.toRat_align b (min a.e b.e) (min_le_right _ _)]
  rw [mul_lt_mul_right (zpow10_pos _)]
  exact_mod_cast Iff.rfl

/-- `decRoundInt` computes `⌊m·10^e + 1/2⌋`. -/
theorem decRoundInt_eq_floor (m e : Int) :
    decRoundInt m e = ⌊(m : ℚ) * 10 ^ e + 1 / 2⌋ := by
  unfold decRoundInt
  by_cases he : 0 ≤ e
  · rw [if_pos he]
    have h0 : ((e.toNat : Int)) = e := Int.toNat_of_nonneg he
    have h1 : (m : ℚ) * 10 ^ e = ((m * 10 ^ e.toNat : Int) : ℚ) := by
      push_cast
      rw [← zpow_natCast (10 : ℚ) e.toNat, h0]
    rw [h1, Int.floor_int_add]
    norm_num
  · rw [if_neg he]
    have hd : ((-e).toNat : Int) = -e := Int.toNat_of_nonneg (by omega)
    have hD : (m : ℚ) * 10 ^ e = (m : ℚ) / ((10 : ℚ) ^ (-e).toNat) := by
      rw [← zpow_natCast (10 : ℚ) (-e).toNat, hd, zpow_neg, div_eq_mul_inv, inv_inv]
    have hpos : (0 : ℚ) < (10 : ℚ) ^ (-e).toNat := by positivity
    have h2 : (m : ℚ) * 10 ^ e + 1 / 2 =
        ((2 * m + 10 ^ (-e).toNat : Int) : ℚ) / ((2 * 10 ^ (-e).toNat : Nat) : ℚ) := by
      rw [hD]
      push_cast
      field_simp
      ring
    rw [h2, Rat.floor_intCast_div_natCast]
    have h3 : ((2 * 10 ^ (-e).toNat : Nat) : Int) = 2 * 10 ^ (-e).toNat := by push_cast; ring
    rw [h3]
    rfl

/-! ### C5, C9: concrete behaviour of `retainDecimal` -/

/-- C5: the spec's concrete `retainDecimal` vectors hold: `2.55` (the exact
decimal `⟨255, -2⟩`) with one decimal and no zero-trimming gives `"2.6"`
(the digit-string algorithm avoids the binary-float `2.5` answer);
`1.2` with zero decimals gives `"1"`; `0` with three decimals and no
trimming gives `"0.000"`. -/
theorem c5_retainDecimal_vectors :
    retainDecimal (.num (.fin ⟨255, -2⟩)) (some (.fin ⟨1, 0⟩)) (some false) = .str (("2.6").data) ∧
    retainDecimal (.num (.fin ⟨12, -1⟩)) (some (.fin ⟨0, 0⟩)) (some true) = .str (("1").data) ∧
    retainDecimal (.num (.fin ⟨0, 0⟩)) (some (.fin ⟨3, 0⟩)) (some false) = .str (("0.000").data) := by
  refine ⟨by decide, by decide, by decide⟩

/-- C9: `NaN` and `Infinity` pass the `typeof`-guard (they are numbers), so
the digit-string algorithm runs on them: with two decimals and no trimming
both give the malformed `"N.aN"`, with trimming both give `"NaN"`, and in
no case is the original value returned unchanged. -/
theorem c9_retainDecimal_nan_infinity :
    retainDecimal (.num .nan) (some (.fin ⟨2, 0⟩)) (some false) = .str (("N.aN").data) ∧
    retainDecimal (.num .nan) (some (.fin ⟨2, 0⟩)) (some true) = .str (("NaN").data) ∧
    retainDecimal (.num .inf) (some (.fin ⟨2, 0⟩)) (some false) = .str (("N.aN").data) ∧
    retainDecimal (.num .inf) (some (.fin ⟨2, 0⟩)) (some true) = .str (("NaN").data) ∧
    retainDecimal (.num .nan) (some (.fin ⟨2, 0⟩)) (some false) ≠ .num .nan ∧
    retainDecimal (.num .inf) (some (.fin ⟨2, 0⟩)) (some false) ≠ .num .inf := by
  refine ⟨by decide, by decide, by decide, by decide, by decide, by decide⟩

/-! ### C2: `retainDecimal` with `decimal = 0` -/

/-- C2 counterexample: at `-2.5` (`⟨-25, -1⟩`) with `decimal = 0` the code
returns `"-2"` (`Math.round` rounds half toward `+∞`), not the `"-3"` that
round-half-away-from-zero would give. -/
theorem c2_counterexample_neg_half :
    retainDecimal (.num (.fin ⟨-25, -1⟩)) (some (.fin ⟨0, 0⟩)) (some false) = .str (("-2").data) ∧
    ¬ retainDecimal (.num (.fin ⟨-25, -1⟩)) (some (.fin ⟨0, 0⟩)) (some false) =
        .str (("-3").data) := by
  refine ⟨by decide, by decide⟩

/-- C2 (amended): with `decimal = 0`, `retainDecimal` returns the string of
an integer `n` with `value - 1/2 < n ≤ value + 1/2` — the nearest integer
with exact halves rounded toward `+∞` (so positive halves round up in
magnitude but negative halves round toward zero), for every finite value
and either zero-trimming flag. -/
theorem c2_retainDecimal_zero_rounds_half_toward_posinf (x : Dec) (rEZ : Option Bool) :
    ∃ n : Int,
      retainDecimal (.num (.fin x)) (some (.fin ⟨0, 0⟩)) rEZ =
        .str (jsToString (.fin (Dec.norm n 0))) ∧
      x.toRat - 1 / 2 < (n : ℚ) ∧ (n : ℚ) ≤ x.toRat + 1 / 2 := by
  refine ⟨decRoundInt x.m x.e, rfl, ?_, ?_⟩
  · rw [decRoundInt_eq_floor]
    have h := Int.sub_one_lt_floor ((x.m : ℚ) * 10 ^ x.e + 1 / 2)
    have hx : x.toRat = (x.m : ℚ) * 10 ^ x.e := rfl
    rw [hx]
    linarith
  · rw [decRoundInt_eq_floor]
    have h := Int.floor_le ((x.m : ℚ) * 10 ^ x.e + 1 / 2)
    have hx : x.toRat = (x.m : ℚ) * 10 ^ x.e := rfl
    rw [hx]
    linarith

/-! ### C3: argument (non-)mutation of the formatters -/

/-- Is a `JsVal` of JavaScript `number` type? -/
def isNumV : JsVal → Bool
  | .num _ => true
  | _ => false

/-- C3 counterexample: `smallNumberFormat(1, {})` writes `decimal = 8` into
the caller's option record — the record passed with a missing `decimal`
field does NOT come back unmodified. -/
theorem c3_counterexample_small_mutates_option :
    (smallNumberFormat (.num (.fin ⟨1, 0⟩)) (some ⟨none, none, none⟩)).2 ≠
      some (⟨none, none, none⟩ : SmallOption) := by decide

/-- C3 (amended): every formatter is a deterministic function of its
arguments, and no operation writes to any argument EXCEPT
`smallNumberFormat` (and `numberFormat` dispatching to it), which assigns
the default 8 into the caller's option record's `decimal` field when the
value is a number and the record's `decimal` is missing or invalid:

* a non-numeric value returns before the write, leaving the record intact;
* a record with a valid `decimal` is left intact;
* a record with a missing/invalid `decimal` comes back with
  `decimal = 8` and no other field changed;
* `largeNumberFormat` never modifies its option argument;
* `numberFormat` with a bare-number or non-object option returns it
  untouched; with an object option it is untouched whenever `small` is
  absent or valid or the large branch runs, and in the small branch with an
  invalid `small.decimal` exactly that field is set to 8.

(`retainDecimal`, `percentFormat` and `datetimeFormat` take only primitive
arguments, which JavaScript passes by value; they are embedded as pure
functions.) -/
theorem c3_only_small_mutates_its_option :
    (∀ (v : JsVal) (r : SmallOption), isNumV v = false →
        (smallNumberFormat v (some r)).2 = some r) ∧
    (∀ (x : JsNum) (r : SmallOption), smallDecValid r.decimal = true →
        (smallNumberFormat (.num x) (some r)).2 = some r) ∧
    (∀ (x : JsNum) (r : SmallOption), smallDecValid r.decimal = false →
        (smallNumberFormat (.num x) (some r)).2 =
          some { r with decimal := some (.fin ⟨8, 0⟩) }) ∧
    (∀ (v : JsVal) (o : Option LargeOption), (largeNumberFormat v o).2 = o) ∧
    (∀ (v : JsVal) (d : JsNum), (numberFormat v (.num d)).2 = .num d) ∧
    (∀ (v : JsVal), (numberFormat v .other).2 = .other) ∧
    (∀ (v : JsVal) (f : FormatOption), f.small = none →
        (numberFormat v (.obj f)).2 = .obj f) ∧
    (∀ (v : JsVal) (f : FormatOption) (r : SmallOption), f.small = some r →
        smallDecValid r.decimal = true → (numberFormat v (.obj f)).2 = .obj f) ∧
    (∀ (v : JsVal) (f : FormatOption),
        jsLtB (jsAbs (toNumber v)) (.fin ⟨1, 1⟩) = false →
        (numberFormat v (.obj f)).2 = .obj f) ∧
    (∀ (x : JsNum) (f : FormatOption) (r : SmallOption), f.small = some r →
        smallDecValid r.decimal = false →
        jsLtB (jsAbs x) (.fin ⟨1, 1⟩) = true →
        (numberFormat (.num x) (.obj f)).2 =
          .obj ⟨some { r with decimal := some (.fin ⟨8, 0⟩) }, f.large⟩) := by
  refine ⟨?_, ?_, ?_, ?_, ?_, ?_, ?_, ?_, ?_, ?_⟩
  · intro v r h
    cases v <;> simp_all [smallNumberFormat, isNumV]
  · intro x r h
    simp [smallNumberFormat, h]
  · intro x r h
    simp [smallNumberFormat, h]
  · intro v o
    cases v <;> rfl
  · intro v d
    cases hv : jsLtB (jsAbs (toNumber v)) (.fin ⟨1, 1⟩) <;>
      simp [numberFormat, hv, updateNF]
  · intro v
    cases hv : jsLtB (jsAbs (toNumber v)) (.fin ⟨1, 1⟩) <;>
      simp [numberFormat, hv, updateNF]
  · intro v f h
    cases hv : jsLtB (jsAbs (toNumber v)) (.fin ⟨1, 1⟩) <;>
      cases f <;> simp_all [numberFormat, updateNF]
  · intro v f r hr h
    cases hv : jsLtB (jsAbs (toNumber v)) (.fin ⟨1, 1⟩) <;> cases f <;>
      cases v <;> simp_all [numberFormat, updateNF, smallNumberFormat]
  · intro v f h
    simp [numberFormat, h]
  · intro x f r hr h hlt
    cases f
    simp_all [numberFormat, updateNF, toNumber, smallNumberFormat]

/-- C3 witness: the amended theorem applies at concrete instances. -/
theorem c3_only_small_mutates_witness :
    smallDecValid (some (JsNum.fin ⟨2, 0⟩)) = true ∧
    (smallNumberFormat (.num (.fin ⟨1, 0⟩))
        (some ⟨some (.fin ⟨2, 0⟩), some true, some false⟩)).2 =
      some ⟨some (.fin ⟨2, 0⟩), some true, some false⟩ ∧
    (largeNumberFormat (.str (("x").data)) none).2 = none :=
  ⟨by decide,
   c3_only_small_mutates_its_option.2.1 (.fin ⟨1, 0⟩)
     ⟨some (.fin ⟨2, 0⟩), some true, some false⟩ (by decide),
   c3_only_small_mutates_its_option.2.2.2.1 (.str (("x").data)) none⟩

/-! ### C7: non-numeric inputs — guarded passthrough vs `ToNumber` errors -/

/-- Every value a caller can pass: the coercible values already modelled by
`JsVal`, plus the shapes JavaScript `ToNumber` rejects with a `TypeError` —
symbols ("Cannot convert a Symbol value to a number"), BigInts ("Cannot
convert a BigInt value to a number"), and objects whose `ToPrimitive`
produces no primitive (e.g. `Object.create(null)`).  `typeof` is
`'symbol'`, `'bigint'` and `'object'` on these — never `'number'`. -/
inductive JsValX where
  | plain (v : JsVal)
  | sym (id : Nat)
  | bigint (i : Int)
  | badObj (id : Nat)
deriving DecidableEq

/-- Is a `JsValX` of JavaScript `number` type? -/
def isNumVX : JsValX → Bool
  | .plain v => isNumV v
  | _ => false

/-- JavaScript `ToNumber` with its error behaviour: `none` models a thrown
`TypeError` (exactly the non-`plain` shapes); every coercible value goes
through `toNumber`. -/
def toNumberX : JsValX → Option JsNum
  | .plain v => some (toNumber v)
  | _ => none

/-- Formatter output over the full universe. -/
inductive JsOutX where
  | val (v : JsValX)
  | vu (value : Chars) (unit : Chars)
deriving DecidableEq

/-- A coercible-world output viewed in the full universe. -/
def liftOut : JsOut → JsOutX
  | .val v => .val (.plain v)
  | .vu a b => .vu a b

/-- `smallNumberFormat` on the full universe: its `typeof value !==
'number'` guard (src/dataFormat.js:64) runs before the value is used in any
other way, so every non-coercible shape passes through untouched and no
error can be raised. -/
def smallNumberFormatX (value : JsValX) (option : Option SmallOption) :
    JsValX × Option SmallOption :=
  match value with
  | .plain v =>
    let r := smallNumberFormat v option
    (.plain r.1, r.2)
  | v => (v, option)

/-- `largeNumberFormat` on the full universe: the guard at
src/dataFormat.js:101 fires first, so non-coercible shapes pass through and
no error can be raised. -/
def largeNumberFormatX (value : JsValX) (option : Option LargeOption) :
    JsOutX × Option LargeOption :=
  match value with
  | .plain v =>
    let r := largeNumberFormat v option
    (liftOut r.1, r.2)
  | v => (.val v, option)

/-- `retainDecimal` on the full universe: the guard at src/dataFormat.js:145
fires first, so non-coercible shapes pass through and no error can be
raised. -/
def retainDecimalX (value : JsValX) (decimal : Option JsNum)
    (isRemoveExtraZero : Option Bool) : JsValX :=
  match value with
  | .plain v => .plain (retainDecimal v decimal isRemoveExtraZero)
  | v => v

/-- `percentFormat` on the full universe: the guard at src/dataFormat.js:188
fires first, so non-coercible shapes pass through and no error can be
raised. -/
def percentFormatX (value : JsValX) (isAttachSymbol : Option Bool) : JsValX :=
  match value with
  | .plain v => .plain (percentFormat v isAttachSymbol)
  | v => v

/-- `datetimeFormat` on the full universe: the guard at src/dataFormat.js:214
fires first, so non-coercible shapes pass through and no error can be
raised. -/
def datetimeFormatX (value : JsValX) (express : Option Chars) : JsValX :=
  match value with
  | .plain v => .plain (datetimeFormat v express)
  | v => v

/-- `numberFormat` on the full universe (src/dataFormat.js:26-54): the
option switch never inspects the value, but line 48 computes
`Math.abs(value)` BEFORE any `typeof` guard, and `Math.abs` applies
`ToNumber` to its argument.  On the shapes `ToNumber` rejects — exactly the
non-`plain` constructors, cf. `toNumberX` — the call therefore throws a
`TypeError` and nothing is returned (`none`).  A coercible value continues
into `numberFormat` unchanged. -/
def numberFormatX (value : JsValX) (formatOption : NFOption) :
    Option (JsOut × NFOption) :=
  match value with
  | .plain v => some (numberFormat v formatOption)
  | _ => none

/-- On the coercible universe `JsVal` (where `ToNumber` cannot throw), a
value that is not of `number` type is returned unchanged by every
formatter; for `numberFormat` the passthrough happens inside the downstream
formatter it dispatches to. -/
theorem plain_nonnumeric_passthrough (v : JsVal) (h : isNumV v = false) :
    ∀ (fo : NFOption) (so : Option SmallOption) (lo : Option LargeOption)
      (d : Option JsNum) (r b : Option Bool) (e : Option Chars),
      (numberFormat v fo).1 = .val v ∧
      (smallNumberFormat v so).1 = v ∧
      (largeNumberFormat v lo).1 = .val v ∧
      retainDecimal v d r = v ∧
      percentFormat v b = v ∧
      datetimeFormat v e = v := by
  intro fo so lo d r b e
  cases hv : jsLtB (jsAbs (toNumber v)) (.fin ⟨1, 1⟩) <;>
    cases v <;>
      simp_all [numberFormat, smallNumberFormat, largeNumberFormat, retainDecimal,
        percentFormat, datetimeFormat, isNumV, updateNF]

/-- C7 counterexample: `numberFormat(Symbol())` does not return the symbol
unchanged and an error IS raised — although `typeof Symbol()` is
`'symbol'`, not `'number'`, `Math.abs(value)` on src/dataFormat.js:48
coerces the value before any guard and `ToNumber` of a symbol throws a
`TypeError`, so the call errors out (`none`) instead of passing the value
through; by contrast the guarded `smallNumberFormat` does return the symbol
untouched. -/
theorem c7_counterexample_symbol_coercion_throws :
    isNumVX (.sym 0) = false ∧
    toNumberX (.sym 0) = none ∧
    numberFormatX (.sym 0) .other = none ∧
    smallNumberFormatX (.sym 0) none = (.sym 0, none) :=
  ⟨rfl, rfl, rfl, rfl⟩

/-- C7 (amended): for every value whose type is not `number`,
`smallNumberFormat`, `largeNumberFormat`, `retainDecimal`, `percentFormat`
and `datetimeFormat` return the input unchanged and can raise no error:
their `typeof` guard runs before the value is used in any other way.
`numberFormat` instead evaluates `Math.abs(value)` before any guard: when
`ToNumber` succeeds (strings, booleans, `null`, `undefined`, coercible
objects) the input is passed through unchanged by the downstream formatter
it dispatches to, with no error; but when `ToNumber` throws — symbols,
BigInts, objects with no usable `ToPrimitive` — `numberFormat` raises that
`TypeError` and returns nothing. -/
theorem c7_nonnumeric_guard_passthrough_vs_coercion_error
    (v : JsValX) (h : isNumVX v = false) :
    ∀ (fo : NFOption) (so : Option SmallOption) (lo : Option LargeOption)
      (d : Option JsNum) (r b : Option Bool) (e : Option Chars),
      (smallNumberFormatX v so).1 = v ∧
      (largeNumberFormatX v lo).1 = .val v ∧
      retainDecimalX v d r = v ∧
      percentFormatX v b = v ∧
      datetimeFormatX v e = v ∧
      (∀ w, v = .plain w →
        numberFormatX v fo = some (numberFormat w fo) ∧
        (numberFormat w fo).1 = .val w) ∧
      (toNumberX v = none → numberFormatX v fo = none) := by
  intro fo so lo d r b e
  cases v with
  | plain w =>
    have hw : isNumV w = false := h
    have hp := plain_nonnumeric_passthrough w hw fo so lo d r b e
    refine ⟨?_, ?_, ?_, ?_, ?_, ?_, ?_⟩
    · exact congrArg JsValX.plain hp.2.1
    · show liftOut (largeNumberFormat w lo).1 = .val (.plain w)
      rw [hp.2.2.1]
      rfl
    · exact congrArg JsValX.plain hp.2.2.2.1
    · exact congrArg JsValX.plain hp.2.2.2.2.1
    · exact congrArg JsValX.plain hp.2.2.2.2.2
    · intro w2 hw2
      injection hw2 with hww
      subst hww
      exact ⟨rfl, hp.1⟩
    · exact fun hc => Option.noConfusion hc
  | sym i =>
    exact ⟨rfl, rfl, rfl, rfl, rfl, fun w hw => JsValX.noConfusion hw, fun _ => rfl⟩
  | bigint i =>
    exact ⟨rfl, rfl, rfl, rfl, rfl, fun w hw => JsValX.noConfusion hw, fun _ => rfl⟩
  | badObj i =>
    exact ⟨rfl, rfl, rfl, rfl, rfl, fun w hw => JsValX.noConfusion hw, fun _ => rfl⟩

/-- C7 witness: the amended theorem applies at a symbol — the guarded
formatters pass it through, and since its coercion throws, `numberFormat`
raises the error. -/
theorem c7_nonnumeric_guard_witness :
    isNumVX (.sym 0) = false ∧
    (smallNumberFormatX (.sym 0) none).1 = .sym 0 ∧
    retainDecimalX (.sym 0) none none = .sym 0 ∧
    (toNumberX (.sym 0) = none → numberFormatX (.sym 0) .other = none) :=
  ⟨by decide,
   (c7_nonnumeric_guard_passthrough_vs_coercion_error (.sym 0) (by decide) .other
      none none none none none none).1,
   (c7_nonnumeric_guard_passthrough_vs_coercion_error (.sym 0) (by decide) .other
      none none none none none none).2.2.1,
   (c7_nonnumeric_guard_passthrough_vs_coercion_error (.sym 0) (by decide) .other
      none none none none none none).2.2.2.2.2.2⟩

/-! ### C4: `numberFormat` refines into the two sub-formatters -/

/-- C4: for a numeric value and a structured option, `numberFormat` agrees
with a direct call of the sub-formatter it dispatches to — with
`Math.abs(value) < 10` it equals `smallNumberFormat(value, opt.small)` and
otherwise `largeNumberFormat(value, opt.large)` — also when the sub-option
is absent, because passing `{}` (what `numberFormat` does) and passing
`undefined` (what the direct call receives) normalise to the same effective
settings. -/
theorem c4_numberFormat_agrees_with_subformatters (x : JsNum) (fo : FormatOption) :
    (jsLtB (jsAbs x) (.fin ⟨1, 1⟩) = true →
      (numberFormat (.num x) (.obj fo)).1 = .val (smallNumberFormat (.num x) fo.small).1) ∧
    (jsLtB (jsAbs x) (.fin ⟨1, 1⟩) = false →
      (numberFormat (.num x) (.obj fo)).1 = (largeNumberFormat (.num x) fo.large).1) := by
  have h28 : effDecimal (some (.fin ⟨2, 0⟩)) = effDecimal none := by decide
  constructor
  · intro h
    cases hs : fo.small with
    | none =>
      simp [numberFormat, hs, toNumber, h, smallNumberFormat, smallDecValid, truthy,
        retainDecimal, Option.getD]
    | some r => simp [numberFormat, hs, toNumber, h]
  · intro h
    cases hl : fo.large with
    | none =>
      simp only [numberFormat, hl, toNumber, h, largeNumberFormat, Option.getD,
        Bool.false_eq_true, if_false, truthy, retainDecimal, h28]
    | some r => simp [numberFormat, hl, toNumber, h]

/-- C4 witness: both branches at concrete inputs with the sub-options
absent. -/
theorem c4_numberFormat_agrees_witness :
    (jsLtB (jsAbs (.fin ⟨5, 0⟩)) (.fin ⟨1, 1⟩) = true ∧
      (numberFormat (.num (.fin ⟨5, 0⟩)) (.obj ⟨none, none⟩)).1 =
        .val (smallNumberFormat (.num (.fin ⟨5, 0⟩)) none).1) ∧
    (jsLtB (jsAbs (.fin ⟨5, 4⟩)) (.fin ⟨1, 1⟩) = false ∧
      (numberFormat (.num (.fin ⟨5, 4⟩)) (.obj ⟨none, none⟩)).1 =
        (largeNumberFormat (.num (.fin ⟨5, 4⟩)) none).1) :=
  ⟨⟨by decide, (c4_numberFormat_agrees_with_subformatters (.fin ⟨5, 0⟩) ⟨none, none⟩).1
      (by decide)⟩,
   ⟨by decide, (c4_numberFormat_agrees_with_subformatters (.fin ⟨5, 4⟩) ⟨none, none⟩).2
      (by decide)⟩⟩

/-! ### C6: `largeNumberFormat` unit and divisor selection -/

/-- Result assembly of `largeNumberFormat`: split into `{ value, unit }` or
concatenate. -/
def combineLarge (v u : Chars) (split : Bool) : JsOut :=
  if split then .vu v u else .val (.str (v ++ u))

/-- A smaller power-of-ten bound implies the larger one (used to discharge
the first magnitude test in the `< 10000` regime). -/
theorem jsLtB_pow10_mono (x : JsNum) (h : jsLtB (jsAbs x) (.fin ⟨1, 4⟩) = true) :
    jsLtB (jsAbs x) (.fin ⟨1, 8⟩) = true := by
  cases x with
  | fin a =>
    simp only [jsAbs, jsLtB] at h ⊢
    rw [Dec.ltB_iff] at h ⊢
    refine lt_trans h ?_
    simp only [Dec.toRat]
    rw [show ((1 : Int) : ℚ) = 1 by norm_num]
    rw [one_mul, one_mul]
    exact zpow_lt_zpow_right₀ (by norm_num) (by norm_num)
  | nan => simp [jsAbs, jsLtB] at h
  | inf => simp [jsAbs, jsLtB] at h
  | neginf => simp [jsAbs, jsLtB] at h

/-- C6: `largeNumberFormat` selects unit and divisor by absolute magnitude
(`亿`/1e8 when `|v| ≥ 1e8`, `万`/1e4 when `1e4 ≤ |v| < 1e8`, no unit and
divisor 1 below 1e4 — the magnitude tests being JS `<`, `NaN` lands in the
`亿` regime), divides the value by the divisor, passes it to
`retainDecimal` with the option's `decimal`/`isRemoveExtraZero`, and
returns `{ value, unit }` when `isSplitValueAndUnit` is truthy, else the
concatenation `value + unit`; concretely
`largeNumberFormat(123456789, {decimal: 2, isSplitValueAndUnit: false})`
gives `"1.23亿"` and `largeNumberFormat(50000, {})` gives `"5万"`.
(Stated for options that do not request the thousands separator, which the
claim does not cover.) -/
theorem c6_largeNumberFormat_unit_selection :
    (∀ (x : JsNum) (opt : LargeOption), truthy opt.isAttachThousandSymbol = false →
      (jsLtB (jsAbs x) (.fin ⟨1, 8⟩) = false →
        (largeNumberFormat (.num x) (some opt)).1 =
          combineLarge
            (strOf (retainDecimal (.num (jsDivPow10 x 8)) opt.decimal opt.isRemoveExtraZero))
            (("亿").data) (truthy opt.isSplitValueAndUnit)) ∧
      (jsLtB (jsAbs x) (.fin ⟨1, 8⟩) = true → jsLtB (jsAbs x) (.fin ⟨1, 4⟩) = false →
        (largeNumberFormat (.num x) (some opt)).1 =
          combineLarge
            (strOf (retainDecimal (.num (jsDivPow10 x 4)) opt.decimal opt.isRemoveExtraZero))
            (("万").data) (truthy opt.isSplitValueAndUnit)) ∧
      (jsLtB (jsAbs x) (.fin ⟨1, 4⟩) = true →
        (largeNumberFormat (.num x) (some opt)).1 =
          combineLarge
            (strOf (retainDecimal (.num (jsDivPow10 x 0)) opt.decimal opt.isRemoveExtraZero))
            [] (truthy opt.isSplitValueAndUnit))) ∧
    (largeNumberFormat (.num (.fin ⟨123456789, 0⟩))
        (some ⟨some (.fin ⟨2, 0⟩), none, some false, none⟩)).1 =
      .val (.str (("1.23亿").data)) ∧
    (largeNumberFormat (.num (.fin ⟨5, 4⟩)) (some ⟨none, none, none, none⟩)).1 =
      .val (.str (("5万").data)) := by
  refine ⟨?_, by decide, by decide⟩
  intro x opt hth
  refine ⟨?_, ?_, ?_⟩
  · intro h8
    cases hsp : truthy opt.isSplitValueAndUnit <;>
      simp [largeNumberFormat, h8, hth, hsp, combineLarge]
  · intro h8 h4
    cases hsp : truthy opt.isSplitValueAndUnit <;>
      simp [largeNumberFormat, h8, h4, hth, hsp, combineLarge]
  · intro h4
    have h8 := jsLtB_pow10_mono x h4
    cases hsp : truthy opt.isSplitValueAndUnit <;>
      simp [largeNumberFormat, h8, h4, hth, hsp, combineLarge]

/-- C6 witness: the universally quantified part applies at `123456789`. -/
theorem c6_largeNumberFormat_unit_selection_witness :
    truthy (none : Option Bool) = false ∧
    jsLtB (jsAbs (.fin ⟨123456789, 0⟩)) (.fin ⟨1, 8⟩) = false ∧
    (largeNumberFormat (.num (.fin ⟨123456789, 0⟩))
        (some ⟨some (.fin ⟨2, 0⟩), none, some false, none⟩)).1 =
      combineLarge
        (strOf (retainDecimal (.num (jsDivPow10 (.fin ⟨123456789, 0⟩) 8))
          (some (.fin ⟨2, 0⟩)) none))
        (("亿").data) (truthy (some false)) :=
  ⟨by decide, by decide,
   ((c6_largeNumberFormat_unit_selection.1 (.fin ⟨123456789, 0⟩)
      ⟨some (.fin ⟨2, 0⟩), none, some false, none⟩ (by decide)).1 (by decide))⟩

/-! ### C10: exponent-notation inputs to `retainDecimal` -/

theorem takeWhile_append_of_all {p : Char → Bool} (l m : Chars) (h : ∀ a ∈ l, p a = true) :
    (l ++ m).takeWhile p = l ++ m.takeWhile p := by
  induction l with
  | nil => simp
  | cons a t ih =>
    have ha : p a = true := h a (by simp)
    have ht : ∀ x ∈ t, p x = true := fun x hx => h x (by simp [hx])
    simp only [List.cons_append, List.takeWhile_cons, ha, if_true]
    rw [ih ht]

theorem dropWhile_append_of_all {p : Char → Bool} (l m : Chars) (h : ∀ a ∈ l, p a = true) :
    (l ++ m).dropWhile p = m.dropWhile p := by
  induction l with
  | nil => simp
  | cons a t ih =>
    have ha : p a = true := h a (by simp)
    have ht : ∀ x ∈ t, p x = true := fun x hx => h x (by simp [hx])
    simp only [List.cons_append, List.dropWhile_cons, ha, if_true]
    exact ih ht

theorem splitDot_of_no_dot (s : Chars) (h : ('.') ∉ s) : splitDot s = (s, []) := by
  induction s with
  | nil => rfl
  | cons c t ih =>
    have hc : ¬(c = '.') := fun hh => h (by simp [hh])
    have ht : ('.') ∉ t := fun hh => h (by simp [hh])
    simp only [splitDot, if_neg hc, ih ht]


theorem char_isDigit_ne {c : Char} (d : Char) (h : c.isDigit = true) (hd : d.isDigit = false) :
    ¬(c = d) := fun hh => by subst hh; rw [hd] at h; exact Bool.noConfusion h

theorem parseNum_expform_nan (sgn epos : Bool) (c : Char) (eds Z : Chars)
    (hc : c.isDigit = true) (heds : ∀ a ∈ eds, a.isDigit = true)
    (hZ : ∀ a ∈ Z, a.isDigit = true) :
    parseNum ((if sgn then [('-')] else []) ++
      c :: 'e' :: (if epos then '+' else '-') :: (eds ++ (Z ++ [('.')]))) = .nan := by
  have hcd : ¬(c = '-') := char_isDigit_ne _ hc (by decide)
  have hcp : ¬(c = '+') := char_isDigit_ne _ hc (by decide)
  have hinf : ∀ l : Chars, ¬(c :: l = ("Infinity").data) := by
    intro l hl
    have : c = 'I' := by
      have := congrArg (fun x => x.headD ' ') hl
      simpa using this
    exact char_isDigit_ne 'I' hc (by decide) this
  have he : ('e').isDigit = false := by decide
  have hdot : ('.').isDigit = false := by decide
  have hspan : spanDigits (eds ++ (Z ++ [('.')])) = (eds ++ Z, [('.')]) := by
    unfold spanDigits
    rw [takeWhile_append_of_all _ _ heds, takeWhile_append_of_all _ _ hZ,
      dropWhile_append_of_all _ _ heds, dropWhile_append_of_all _ _ hZ]
    simp [List.takeWhile_cons, List.dropWhile_cons, hdot]
  cases sgn <;> cases epos <;>
    simp only [if_true, if_false, Bool.false_eq_true, List.nil_append, List.cons_append] <;>
    · simp only [parseNum, stripSign, if_neg hcd, if_neg hcp, if_pos rfl,
        if_neg (hinf _), spanDigits, List.takeWhile_cons, hc, if_true, he,
        Bool.false_eq_true, if_false, List.dropWhile_cons]
      simp only [parseExpTail, stripSign, if_pos rfl, if_neg (by decide : ¬(('+') = '-'))]
      simp [hspan]

theorem spanDigits_cons_true {c : Char} {t : Chars} (h : c.isDigit = true) :
    spanDigits (c :: t) = (c :: (spanDigits t).1, (spanDigits t).2) := by
  simp [spanDigits, List.takeWhile_cons, List.dropWhile_cons, h]

theorem spanDigits_cons_false {c : Char} {t : Chars} (h : c.isDigit = false) :
    spanDigits (c :: t) = ([], c :: t) := by
  simp [spanDigits, List.takeWhile_cons, List.dropWhile_cons, h]

theorem parseNum_zeros_nan_tail (Z : Chars) (hZ : ∀ a ∈ Z, a.isDigit = true) :
    parseNum ('0' :: '.' :: (Z ++ ("NaN").data)) = .nan := by
  have hN : ('N').isDigit = false := by decide
  have hdot : ('.').isDigit = false := by decide
  have hnan : ("NaN").data = 'N' :: 'a' :: 'N' :: [] := rfl
  have hspan : spanDigits (Z ++ ("NaN").data) = (Z, ("NaN").data) := by
    unfold spanDigits
    rw [takeWhile_append_of_all _ _ hZ, dropWhile_append_of_all _ _ hZ, hnan]
    simp [List.takeWhile_cons, List.dropWhile_cons, hN]
  have hinf : ¬('0' :: '.' :: (Z ++ ("NaN").data) = ("Infinity").data) := by
    intro h
    have := congrArg (fun l => l.headD ' ') h
    simp at this
  simp only [parseNum, stripSign, if_neg (show ¬(('0') = '-') by decide),
    if_neg (show ¬(('0') = '+') by decide), if_neg hinf,
    spanDigits_cons_true (show ('0').isDigit = true by decide),
    spanDigits_cons_false hdot, hspan, hnan]
  simp

theorem effDecimal_natCast (d : Nat) : effDecimal (some (.fin ⟨(d : Int), 0⟩)) = d := by
  simp [effDecimal, Dec.floorNat]

theorem retainDecimal_expform_nan (sgn epos : Bool) (c : Char) (eds : Chars) (x : Dec) (d : Nat)
    (hS : jsToString (.fin x) =
      (if sgn then [('-')] else []) ++ c :: 'e' :: (if epos then '+' else '-') :: eds)
    (hc : c.isDigit = true) (heds : ∀ a ∈ eds, a.isDigit = true) (hd : 1 ≤ d) :
    retainDecimal (.num (.fin x)) (some (.fin ⟨(d : Int), 0⟩)) (some true) =
      .str (("NaN").data) := by
  have hzd : ∀ a ∈ List.replicate d ('0'), a.isDigit = true := by
    intro a ha
    rw [List.eq_of_mem_replicate ha]
    decide
  have hdm : ('.') ∉ jsToString (.fin x) := by
    rw [hS]
    intro hmem
    simp only [List.mem_append, List.mem_cons] at hmem
    rcases hmem with h | h | h | h | h
    · cases sgn <;> simp_all
    · exact char_isDigit_ne '.' hc (by decide) h.symm
    · exact absurd h (by decide)
    · cases epos <;> simp_all
    · exact char_isDigit_ne '.' (heds _ h) (by decide) rfl
  have hsplit := splitDot_of_no_dot _ hdm
  unfold retainDecimal
  rw [effDecimal_natCast]
  simp only [Option.getD]
  unfold retainDecimalNum
  rw [if_neg (by omega : ¬(d = 0))]
  simp only [hsplit, List.length_nil, List.nil_append]
  rw [if_pos (by omega : 0 < (d : Nat))]
  simp only [Nat.sub_zero, List.take_replicate, min_self, List.drop_replicate, Nat.sub_self,
    List.replicate_zero]
  have hparse : parseNum (jsToString (.fin x) ++ List.replicate d ('0') ++ [('.')]) = .nan := by
    rw [hS]
    have := parseNum_expform_nan sgn epos c eds (List.replicate d ('0')) hc heds hzd
    simpa [List.append_assoc, List.cons_append] using this
  rw [show ('.') :: (List.nil : Chars) = [('.')] from rfl, hparse]
  rw [show jsRound (JsNum.nan) = JsNum.nan from rfl]
  match d, hd with
  | 1, _ => decide
  | 2, _ => decide
  | (n + 3), _ =>
    have h3 : ¬((n + 3 : Nat) < (jsToString (JsNum.nan)).length) := by
      simp [jsToString]
    rw [if_neg h3]
    have hlen : (n + 3) - (jsToString (JsNum.nan)).length = n := by simp [jsToString]
    rw [hlen, show jsToString (JsNum.nan) = ("NaN").data from rfl,
      parseNum_zeros_nan_tail (List.replicate n ('0'))
        (fun a ha => by rw [List.eq_of_mem_replicate ha]; decide)]
    rfl

/-- C10 counterexample: `1.2e-8` (`⟨12, -9⟩`) prints in exponent notation
("1.2e-8"), yet `retainDecimal(1.2e-8, 1, true)` returns the plain string
`"0"` — a correct 1-decimal rounding with no `"NaN"` anywhere — because the
cut lands right before the mantissa's `e` and the re-parsed `"12.e-8"` is a
valid numeric literal. -/
theorem c10_counterexample_mantissa_dot :
    retainDecimal (.num (.fin ⟨12, -9⟩)) (some (.fin ⟨1, 0⟩)) (some true) = .str (("0").data) ∧
    ('N') ∉ strOf (retainDecimal (.num (.fin ⟨12, -9⟩)) (some (.fin ⟨1, 0⟩)) (some true)) := by
  refine ⟨by decide, by decide⟩

/-- C10 (amended): `retainDecimal` assumes plain decimal `toString` text;
for every finite number whose string representation is exponent notation
with a single-digit mantissa and no decimal point (the `"1e-8"` /
`"1e+21"` shapes), every `decimal ≥ 1` with zero-trimming returns the
string `"NaN"` (the padded digits extend the exponent and the trailing
point invalidates the literal); in particular `smallNumberFormat(1e-8)`
with default options returns `"NaN"`.  (A mantissa containing a decimal
point, e.g. `1.2e-8`, can instead re-parse successfully — see the
counterexample.) -/
theorem c10_retainDecimal_exponent_notation :
    (∀ (sgn epos : Bool) (c : Char) (eds : Chars) (x : Dec) (d : Nat),
      jsToString (.fin x) =
          (if sgn then [('-')] else []) ++ c :: 'e' :: (if epos then '+' else '-') :: eds →
      c.isDigit = true → (∀ a ∈ eds, a.isDigit = true) → 1 ≤ d →
      retainDecimal (.num (.fin x)) (some (.fin ⟨(d : Int), 0⟩)) (some true) =
        .str (("NaN").data)) ∧
    (smallNumberFormat (.num (.fin ⟨1, -8⟩)) none).1 = .str (("NaN").data) :=
  ⟨fun sgn epos c eds x d hS hc heds hd =>
    retainDecimal_expform_nan sgn epos c eds x d hS hc heds hd, by decide⟩

/-- C10 witness: the amended theorem applies to `1e-8` with two decimals. -/
theorem c10_retainDecimal_exponent_notation_witness :
    jsToString (.fin ⟨1, -8⟩) =
        (if false then [('-')] else []) ++ '1' :: 'e' :: (if false then '+' else '-') :: [('8')] ∧
    retainDecimal (.num (.fin ⟨1, -8⟩)) (some (.fin ⟨((2 : Nat) : Int), 0⟩)) (some true) =
      .str (("NaN").data) :=
  ⟨by decide,
   c10_retainDecimal_exponent_notation.1 false false '1' [('8')] ⟨1, -8⟩ 2 (by decide)
     (by decide) (fun a ha => by simp at ha; rw [ha]; decide) (by decide)⟩

/-! ### C8: `datetimeFormat` token substitution -/

theorem digitChar_isDigit (k : Nat) : (digitChar k).isDigit = true := by
  unfold digitChar
  split <;> decide

theorem natDigitsAux_chars (f : Nat) : ∀ (n : Nat), ∀ ch ∈ natDigitsAux f n, ch.isDigit = true := by
  induction f with
  | zero => intro n ch h; simp [natDigitsAux] at h
  | succ f ih =>
    intro n ch h
    unfold natDigitsAux at h
    by_cases hn : n < 10
    · rw [if_pos hn] at h
      simp at h
      rw [h]
      exact digitChar_isDigit n
    · rw [if_neg hn] at h
      simp only [List.mem_append, List.mem_cons, List.not_mem_nil, or_false] at h
      rcases h with h | h
      · exact ih _ ch h
      · rw [h]; exact digitChar_isDigit _

theorem natDigits_chars (n : Nat) : ∀ ch ∈ natDigits n, ch.isDigit = true :=
  natDigitsAux_chars (n + 1) n

/-- The characters `Number.prototype.toString` can emit for a finite value
or `NaN` — none of them is a `datetimeFormat` token character. -/
def SafeC (ch : Char) : Prop :=
  ch.isDigit = true ∨ ch = '-' ∨ ch = '.' ∨ ch = 'e' ∨ ch = '+' ∨ ch = 'N' ∨ ch = 'a'

theorem mem_mantissa {s : Chars} {ch : Char}
    (h : ch ∈ (match s with
      | ([] : Chars) => s
      | c :: rest => if rest = [] then [c] else c :: '.' :: rest)) :
    ch = '.' ∨ ch ∈ s := by
  cases s with
  | nil => simp at h
  | cons c rest =>
    have h2 : ch ∈ (if rest = [] then [c] else c :: '.' :: rest) := h
    by_cases hr : rest = []
    · rw [if_pos hr] at h2
      simp only [List.mem_singleton] at h2
      exact Or.inr (by simp [h2])
    · rw [if_neg hr] at h2
      simp only [List.mem_cons] at h2
      rcases h2 with h2 | h2 | h2
      · exact Or.inr (by simp [h2])
      · exact Or.inl h2
      · exact Or.inr (by simp [h2])

theorem decFormat_chars (neg : Bool) (m : Nat) (e : Int) :
    ∀ ch ∈ decFormat neg m e, SafeC ch := by
  intro ch h
  have hsafe : ∀ k : Nat, ∀ c ∈ natDigits k, SafeC c := fun k c hc =>
    Or.inl (natDigits_chars k c hc)
  have hz : ∀ k : Nat, ∀ c ∈ List.replicate k ('0'), SafeC c := by
    intro k c hc
    rw [List.eq_of_mem_replicate hc]
    exact Or.inl (by decide)
  unfold decFormat at h
  simp only [] at h
  have hbody : ∀ l : Chars, (∀ c ∈ l, SafeC c) →
      ch ∈ (if neg = true then '-' :: l else l) → SafeC ch := by
    intro l hl hc
    cases neg with
    | true =>
      have h2 : ch ∈ '-' :: l := by simpa using hc
      rcases List.mem_cons.mp h2 with h3 | h3
      · exact Or.inr (Or.inl h3)
      · exact hl _ h3
    | false => exact hl _ (by simpa using hc)
  refine hbody _ ?_ h
  intro c hc
  split at hc
  · rcases List.mem_append.mp hc with hc | hc
    · exact hsafe _ _ hc
    · exact hz _ _ hc
  · split at hc
    · rcases List.mem_append.mp hc with hc | hc
      · exact hsafe _ _ (List.mem_of_mem_take hc)
      · rcases List.mem_cons.mp hc with hc | hc
        · exact Or.inr (Or.inr (Or.inl hc))
        · exact hsafe _ _ (List.mem_of_mem_drop hc)
    · split at hc
      · rcases List.mem_cons.mp hc with hc | hc
        · exact Or.inl (by rw [hc]; decide)
        · rcases List.mem_cons.mp hc with hc | hc
          · exact Or.inr (Or.inr (Or.inl hc))
          · rcases List.mem_append.mp hc with hc | hc
            · exact hz _ _ hc
            · exact hsafe _ _ hc
      · rcases List.mem_append.mp hc with hc | hc
        · rcases mem_mantissa hc with hc | hc
          · exact Or.inr (Or.inr (Or.inl hc))
          · exact hsafe _ _ hc
        · rcases List.mem_cons.mp hc with hc | hc
          · exact Or.inr (Or.inr (Or.inr (Or.inl hc)))
          · split at hc
            · rcases List.mem_cons.mp hc with hc | hc
              · exact Or.inr (Or.inl hc)
              · exact hsafe _ _ hc
            · rcases List.mem_cons.mp hc with hc | hc
              · exact Or.inr (Or.inr (Or.inr (Or.inr (Or.inl hc))))
              · exact hsafe _ _ hc

theorem jsToString_chars (y : JsNum) (hy : y ≠ .inf) (hy2 : y ≠ .neginf) :
    ∀ ch ∈ jsToString y, SafeC ch := by
  cases y with
  | fin x =>
    intro ch h
    have h1 : ch ∈ (if x.m = 0 then (['0'] : Chars)
        else decFormat (decSplit x).1 (decSplit x).2.1 (decSplit x).2.2) := h
    by_cases hm : x.m = 0
    · rw [if_pos hm] at h1
      simp only [List.mem_singleton] at h1
      rw [h1]
      exact Or.inl (by decide)
    · rw [if_neg hm] at h1
      exact decFormat_chars _ _ _ _ h1
  | nan =>
    intro ch h
    have h2 : ch ∈ ['N', 'a', 'N'] := h
    simp only [List.mem_cons, List.not_mem_nil, or_false] at h2
    rcases h2 with h2 | h2 | h2
    · rw [h2]; exact Or.inr (Or.inr (Or.inr (Or.inr (Or.inr (Or.inl rfl)))))
    · rw [h2]; exact Or.inr (Or.inr (Or.inr (Or.inr (Or.inr (Or.inr rfl)))))
    · rw [h2]; exact Or.inr (Or.inr (Or.inr (Or.inr (Or.inr (Or.inl rfl)))))
  | inf => exact absurd rfl hy
  | neginf => exact absurd rfl hy2

theorem jsRound_shape (y : JsNum) (h1 : y ≠ .inf) (h2 : y ≠ .neginf) :
    jsRound y ≠ .inf ∧ jsRound y ≠ .neginf := by
  cases y with
  | fin x => exact ⟨by simp [jsRound], by simp [jsRound]⟩
  | nan => exact ⟨by simp [jsRound], by simp [jsRound]⟩
  | inf => exact absurd rfl h1
  | neginf => exact absurd rfl h2

theorem dtPadded_eq (y : JsNum) :
    dtPadded y =
      (if jsLtB (jsAbs y) (.fin ⟨1, 1⟩) then '0' :: jsToString (jsRound y)
       else jsToString (jsRound y)) := by
  have hv : smallDecValid (some (.fin ⟨0, 0⟩)) = true := by decide
  have he : effDecimal (some (.fin ⟨0, 0⟩)) = 0 := by decide
  simp only [dtPadded, smallNumberFormat, hv, if_true, retainDecimal, he, Option.getD,
    retainDecimalNum, if_pos rfl, strOf, truthy, Bool.true_and]

theorem dtPadded_chars (y : JsNum) (h1 : y ≠ .inf) (h2 : y ≠ .neginf) :
    ∀ ch ∈ dtPadded y, SafeC ch := by
  intro ch h
  rw [dtPadded_eq] at h
  have hr := jsRound_shape y h1 h2
  by_cases hlt : jsLtB (jsAbs y) (.fin ⟨1, 1⟩) = true
  · rw [if_pos hlt] at h
    rcases List.mem_cons.mp h with h | h
    · rw [h]; exact Or.inl (by decide)
    · exact jsToString_chars _ hr.1 hr.2 _ h
  · rw [if_neg (by simpa using hlt)] at h
    exact jsToString_chars _ hr.1 hr.2 _ h

instance (ch : Char) : Decidable (SafeC ch) := by
  unfold SafeC
  infer_instance

theorem SafeC_ne_tok {ch : Char} (t : Char) (h : SafeC ch) (h2 : ¬ SafeC t) : ¬(ch = t) :=
  fun hh => h2 (hh ▸ h)

theorem matchesAt_cons_ne {p c : Char} {ps cs : Chars} (h : ¬(p = c)) :
    matchesAt (p :: ps) (c :: cs) = false := by
  simp [matchesAt, h]

theorem replaceFirstL_cons (pat r : Chars) (c : Char) (cs : Chars) :
    replaceFirstL pat r (c :: cs) =
      if matchesAt pat (c :: cs) = true then r ++ (c :: cs).drop pat.length
      else c :: replaceFirstL pat r cs := rfl

theorem replaceFirstL_no_head (p : Char) (ps r : Chars) :
    ∀ s : Chars, (∀ a ∈ s, ¬(a = p)) → replaceFirstL (p :: ps) r s = s := by
  intro s
  induction s with
  | nil => intro _; rfl
  | cons c cs ih =>
    intro h
    have hc : ¬(p = c) := fun hh => h c (by simp) hh.symm
    rw [replaceFirstL_cons, matchesAt_cons_ne hc]
    simp only [Bool.false_eq_true, if_false]
    rw [ih (fun a ha => h a (by simp [ha]))]

theorem replaceFirstL_append_left (p : Char) (ps r s1 s2 : Chars)
    (h : ∀ a ∈ s1, ¬(a = p)) :
    replaceFirstL (p :: ps) r (s1 ++ s2) = s1 ++ replaceFirstL (p :: ps) r s2 := by
  induction s1 with
  | nil => simp
  | cons c cs ih =>
    have hc : ¬(p = c) := fun hh => h c (by simp) hh.symm
    simp only [List.cons_append]
    rw [replaceFirstL_cons, matchesAt_cons_ne hc]
    simp only [Bool.false_eq_true, if_false]
    rw [ih (fun a ha => h a (by simp [ha]))]

theorem replaceFirstL_match (pat r s : Chars) (hne : s ≠ []) (h : matchesAt pat s = true) :
    replaceFirstL pat r s = r ++ s.drop pat.length := by
  cases s with
  | nil => exact absurd rfl hne
  | cons c cs => rw [replaceFirstL_cons, if_pos h]

theorem dtFields_not_infinite (x : JsNum) :
    ((dtFields x).m ≠ .inf ∧ (dtFields x).m ≠ .neginf) ∧
    ((dtFields x).s ≠ .inf ∧ (dtFields x).s ≠ .neginf) := by
  cases x with
  | fin q =>
    by_cases hr : q.truncInt.natAbs ≤ 8640000000000000 <;> simp [dtFields, hr]
  | nan => exact ⟨⟨by simp [dtFields], by simp [dtFields]⟩, ⟨by simp [dtFields], by simp [dtFields]⟩⟩
  | inf => exact ⟨⟨by simp [dtFields], by simp [dtFields]⟩, ⟨by simp [dtFields], by simp [dtFields]⟩⟩
  | neginf => exact ⟨⟨by simp [dtFields], by simp [dtFields]⟩, ⟨by simp [dtFields], by simp [dtFields]⟩⟩

theorem dtStrings_mm_safe (x : JsNum) : ∀ ch ∈ (dtStrings x).mm, SafeC ch := by
  have h := (dtFields_not_infinite x).1
  exact dtPadded_chars _ h.1 h.2

theorem dtStrings_m_safe (x : JsNum) : ∀ ch ∈ (dtStrings x).m, SafeC ch := by
  have h := (dtFields_not_infinite x).1
  exact jsToString_chars _ h.1 h.2

theorem dtStrings_s_safe (x : JsNum) : ∀ ch ∈ (dtStrings x).s, SafeC ch := by
  have h := (dtFields_not_infinite x).2
  exact jsToString_chars _ h.1 h.2

theorem datetimeFormat_mm_mm (x : JsNum) :
    datetimeFormat (.num x) (some (("mm mm").data)) =
      .str ((dtStrings x).mm ++ ' ' :: ((dtStrings x).m ++ [('m')])) := by
  have hmm := dtStrings_mm_safe x
  have hm := dtStrings_m_safe x
  have hstart : datetimeFormat (.num x) (some (("mm mm").data)) =
      .str ((dtSteps (dtStrings x)).foldl (fun acc kv => replaceFirstL kv.1 kv.2 acc)
        (("mm mm").data)) := rfl
  rw [hstart]
  simp only [dtSteps, List.foldl_cons, List.foldl_nil]
  rw [replaceFirstL_no_head 'y' ['y', 'y', 'y'] (dtStrings x).yyyy ['m', 'm', ' ', 'm', 'm']
      (by decide),
    replaceFirstL_no_head 'M' ['M'] (dtStrings x).MM ['m', 'm', ' ', 'm', 'm'] (by decide),
    replaceFirstL_no_head 'd' ['d'] (dtStrings x).dd ['m', 'm', ' ', 'm', 'm'] (by decide),
    replaceFirstL_no_head 'h' ['h'] (dtStrings x).hh ['m', 'm', ' ', 'm', 'm'] (by decide),
    replaceFirstL_match ('m' :: ['m']) (dtStrings x).mm ['m', 'm', ' ', 'm', 'm'] (by decide)
      (by decide)]
  rw [show List.drop ('m' :: ['m'] : Chars).length (['m', 'm', ' ', 'm', 'm'] : Chars) =
      ([' ', 'm', 'm'] : Chars) from rfl]
  have hno_s : ∀ a ∈ (dtStrings x).mm ++ [' ', 'm', 'm'], ¬(a = 's') :=
    List.forall_mem_append.mpr ⟨fun a ha => SafeC_ne_tok 's' (hmm a ha) (by decide), by decide⟩
  have hno_y : ∀ a ∈ (dtStrings x).mm ++ [' ', 'm', 'm'], ¬(a = 'y') :=
    List.forall_mem_append.mpr ⟨fun a ha => SafeC_ne_tok 'y' (hmm a ha) (by decide), by decide⟩
  have hno_M : ∀ a ∈ (dtStrings x).mm ++ [' ', 'm', 'm'], ¬(a = 'M') :=
    List.forall_mem_append.mpr ⟨fun a ha => SafeC_ne_tok 'M' (hmm a ha) (by decide), by decide⟩
  have hno_d : ∀ a ∈ (dtStrings x).mm ++ [' ', 'm', 'm'], ¬(a = 'd') :=
    List.forall_mem_append.mpr ⟨fun a ha => SafeC_ne_tok 'd' (hmm a ha) (by decide), by decide⟩
  have hno_h : ∀ a ∈ (dtStrings x).mm ++ [' ', 'm', 'm'], ¬(a = 'h') :=
    List.forall_mem_append.mpr ⟨fun a ha => SafeC_ne_tok 'h' (hmm a ha) (by decide), by decide⟩
  rw [replaceFirstL_no_head 's' ['s'] (dtStrings x).ss _ hno_s,
    replaceFirstL_no_head 'y' ['y'] (dtStrings x).yy _ hno_y,
    replaceFirstL_no_head 'M' [] (dtStrings x).M _ hno_M,
    replaceFirstL_no_head 'd' [] (dtStrings x).d _ hno_d,
    replaceFirstL_no_head 'h' [] (dtStrings x).h _ hno_h]
  rw [replaceFirstL_append_left 'm' [] (dtStrings x).m (dtStrings x).mm [' ', 'm', 'm']
    (fun a ha => SafeC_ne_tok 'm' (hmm a ha) (by decide))]
  have hin : replaceFirstL ('m' :: []) (dtStrings x).m [' ', 'm', 'm'] =
      ' ' :: ((dtStrings x).m ++ [('m')]) := by
    rw [replaceFirstL_cons, if_neg (by decide), replaceFirstL_cons, if_pos (by decide)]
    rfl
  rw [hin]
  have hno_s2 : ∀ a ∈ (dtStrings x).mm ++ ' ' :: ((dtStrings x).m ++ [('m')]), ¬(a = 's') := by
    intro a ha
    rcases List.mem_append.mp ha with h | h
    · exact SafeC_ne_tok 's' (hmm a h) (by decide)
    · rcases List.mem_cons.mp h with h | h
      · rw [h]; decide
      · rcases List.mem_append.mp h with h | h
        · exact SafeC_ne_tok 's' (hm a h) (by decide)
        · simp only [List.mem_singleton] at h
          rw [h]; decide
  rw [replaceFirstL_no_head 's' [] (dtStrings x).s _ hno_s2]

theorem datetimeFormat_s_s (x : JsNum) :
    datetimeFormat (.num x) (some (("s s").data)) =
      .str ((dtStrings x).s ++ [' ', 's']) := by
  have hstart : datetimeFormat (.num x) (some (("s s").data)) =
      .str ((dtSteps (dtStrings x)).foldl (fun acc kv => replaceFirstL kv.1 kv.2 acc)
        (("s s").data)) := rfl
  rw [hstart]
  simp only [dtSteps, List.foldl_cons, List.foldl_nil]
  rw [replaceFirstL_no_head 'y' ['y', 'y', 'y'] (dtStrings x).yyyy ['s', ' ', 's'] (by decide),
    replaceFirstL_no_head 'M' ['M'] (dtStrings x).MM ['s', ' ', 's'] (by decide),
    replaceFirstL_no_head 'd' ['d'] (dtStrings x).dd ['s', ' ', 's'] (by decide),
    replaceFirstL_no_head 'h' ['h'] (dtStrings x).hh ['s', ' ', 's'] (by decide),
    replaceFirstL_no_head 'm' ['m'] (dtStrings x).mm ['s', ' ', 's'] (by decide)]
  have hss : replaceFirstL ('s' :: ['s']) (dtStrings x).ss ['s', ' ', 's'] = ['s', ' ', 's'] := by
    rw [replaceFirstL_cons, if_neg (by decide), replaceFirstL_cons, if_neg (by decide),
      replaceFirstL_cons, if_neg (by decide)]
    rfl
  rw [hss,
    replaceFirstL_no_head 'y' ['y'] (dtStrings x).yy ['s', ' ', 's'] (by decide),
    replaceFirstL_no_head 'M' [] (dtStrings x).M ['s', ' ', 's'] (by decide),
    replaceFirstL_no_head 'd' [] (dtStrings x).d ['s', ' ', 's'] (by decide),
    replaceFirstL_no_head 'h' [] (dtStrings x).h ['s', ' ', 's'] (by decide),
    replaceFirstL_no_head 'm' [] (dtStrings x).m ['s', ' ', 's'] (by decide)]
  rw [replaceFirstL_cons, if_pos (by decide)]
  rfl

/-- C8 counterexample: at timestamp 0 with pattern `"mm mm"`, the second
`mm` is NOT left verbatim: after the `mm` pass produces `"00 mm"`, the
later single-`m` pass rewrites its first character, giving `"00 0m"`. -/
theorem c8_counterexample_second_occurrence :
    datetimeFormat (.num (.fin ⟨0, 0⟩)) (some (("mm mm").data)) = .str (("00 0m").data) ∧
    ¬ datetimeFormat (.num (.fin ⟨0, 0⟩)) (some (("mm mm").data)) =
        .str (("00 mm").data) := by
  refine ⟨by decide, by decide⟩

/-- C8 (amended): `datetimeFormat` substitutes tokens in the order `yyyy,
MM, dd, hh, mm, ss, yy, M, d, h, m, s`, replacing only the first occurrence
of each token in the partially substituted pattern; a repeated token's
second occurrence therefore survives only if no LATER token in the order
matches it.  For every numeric timestamp, the doubled two-letter pattern
`"mm mm"` yields the padded minutes, a space, then the unpadded minutes
followed by a literal `m` (the one-letter `m` pass rewrote the second
occurrence), while the doubled final token `"s s"` keeps its second
occurrence verbatim. -/
theorem c8_datetimeFormat_token_order (x : JsNum) :
    datetimeFormat (.num x) (some (("mm mm").data)) =
      .str ((dtStrings x).mm ++ ' ' :: ((dtStrings x).m ++ [('m')])) ∧
    datetimeFormat (.num x) (some (("s s").data)) =
      .str ((dtStrings x).s ++ [' ', 's']) :=
  ⟨datetimeFormat_mm_mm x, datetimeFormat_s_s x⟩

/-! ### C1 infrastructure -/

theorem getElem?_append_len (pre : List JVal) (x : JVal) (l : List JVal) :
    (pre ++ x :: l)[pre.length]? = some x := by
  rw [List.getElem?_append_right (le_refl pre.length)]
  simp

theorem set_append_len (pre : List JVal) (x y : JVal) (l : List JVal) :
    (pre ++ x :: l).set pre.length y = pre ++ y :: l := by
  induction pre with
  | nil => rfl
  | cons p ps ih => simp only [List.cons_append, List.length_cons, List.set_cons_succ, ih]

theorem getProp_append_not_mem (A l : List (String × JVal)) (k : String) (h : k ∉ keysOf A) :
    getProp (A ++ l) k = getProp l k := by
  induction A with
  | nil => rfl
  | cons p ps ih =>
    have h1 : ¬(p.1 = k) := fun hh => h (by simp [keysOf, hh])
    rcases p with ⟨k1, v1⟩
    simp only [List.cons_append, getProp, if_neg (by simpa using h1)]
    exact ih (fun hh => h (by simp [keysOf] at hh ⊢; exact Or.inr hh))

theorem setProp_append_not_mem (A l : List (String × JVal)) (k : String) (v : JVal)
    (h : k ∉ keysOf A) :
    setProp (A ++ l) k v = A ++ setProp l k v := by
  induction A with
  | nil => rfl
  | cons p ps ih =>
    have h1 : ¬(p.1 = k) := fun hh => h (by simp [keysOf, hh])
    rcases p with ⟨k1, v1⟩
    simp only [List.cons_append, setProp, if_neg (by simpa using h1), List.append_eq]
    rw [ih (fun hh => h (by simp [keysOf] at hh ⊢; exact Or.inr hh))]

theorem setProp_not_mem (l : List (String × JVal)) (k : String) (v : JVal)
    (h : k ∉ keysOf l) :
    setProp l k v = l ++ [(k, v)] := by
  induction l with
  | nil => rfl
  | cons p ps ih =>
    have h1 : ¬(p.1 = k) := fun hh => h (by simp [keysOf, hh])
    rcases p with ⟨k1, v1⟩
    simp only [setProp, if_neg (by simpa using h1), List.cons_append]
    rw [ih (fun hh => h (by simp [keysOf] at hh ⊢; exact Or.inr hh))]

theorem setProp_cons_self (l : List (String × JVal)) (k : String) (v w : JVal) :
    setProp ((k, w) :: l) k v = (k, v) :: l := by
  simp [setProp]

theorem keysOf_rtObj (ps : List (String × JVal)) :
    ∀ (n : Nat), ∀ k ∈ keysOf (rtObj ps n).1, k ∈ keysOf ps := by
  induction ps with
  | nil => intro n k h; exact absurd h (by simp [rtObj, keysOf])
  | cons p ps' ih =>
    intro n k h
    rcases p with ⟨k1, v1⟩
    simp only [rtObj] at h
    rcases hv : rtV v1 n with _ | q
    · rw [hv] at h
      simp only at h
      exact List.mem_cons.mpr (Or.inr (ih n k h))
    · rw [hv] at h
      simp only [keysOf, List.map_cons, List.mem_cons] at h
      rcases h with h | h
      · exact List.mem_cons.mpr (Or.inl h)
      · exact List.mem_cons.mpr (Or.inr (ih q.2 k h))

theorem ppfElems_spec : ∀ (es : List JVal), (∀ e ∈ es, MainS e) →
    wfElems es = true → nafElems es = true →
    ∀ (n : Nat) (pre : List JVal) (ad : Nat),
      (rtArr es n).2 = (csArr es n).2 ∧
      ppfElems pre.length es (.arr ad (pre ++ (rtArr es n).1)) =
        .arr ad (pre ++ (csArr es n).1) := by
  intro es
  induction es with
  | nil => exact fun _ _ _ n pre ad => ⟨rfl, rfl⟩
  | cons e es' ih =>
    intro hes hwf hnaf n pre ad
    have hwfc : (wfV e && wfElems es') = true := hwf
    rw [Bool.and_eq_true] at hwfc
    rcases hwfc with ⟨hwfe, hwfes⟩
    have hnafc : (!isFnB e && nafV e && nafElems es') = true := hnaf
    rw [Bool.and_eq_true, Bool.and_eq_true] at hnafc
    rcases hnafc with ⟨⟨hfn, hnafe⟩, hnafes⟩
    have hnfn : ∀ i, e ≠ .fn i := by
      intro i hh
      subst hh
      exact Bool.noConfusion hfn
    obtain ⟨Re, hrt, hppf⟩ := hes e (by simp) n hwfe hnafe hnfn
    have hrtA : rtArr (e :: es') n =
        (Re :: (rtArr es' (csV e n).2).1, (rtArr es' (csV e n).2).2) := by
      simp [rtArr, hrt]
    have hcsA : csArr (e :: es') n =
        ((csV e n).1 :: (csArr es' (csV e n).2).1, (csArr es' (csV e n).2).2) := rfl
    have ihres := ih (fun e' he' => hes e' (by simp [he'])) hwfes hnafes (csV e n).2
      (pre ++ [(csV e n).1]) ad
    refine ⟨by rw [hrtA, hcsA]; exact ihres.1, ?_⟩
    rw [hrtA, hcsA]
    show ppfElems pre.length (e :: es')
        (.arr ad (pre ++ Re :: (rtArr es' (csV e n).2).1)) = _
    simp only [ppfElems]
    rw [show getIdxT (JVal.arr ad (pre ++ Re :: (rtArr es' (csV e n).2).1)) pre.length =
        some Re from by
      show (pre ++ Re :: (rtArr es' (csV e n).2).1)[pre.length]? = some Re
      exact getElem?_append_len _ _ _]
    show ppfElems (pre.length + 1) es'
        (setIdxT (JVal.arr ad (pre ++ Re :: (rtArr es' (csV e n).2).1)) pre.length (ppf e Re)) = _
    rw [hppf]
    show ppfElems (pre.length + 1) es'
        (.arr ad ((pre ++ Re :: (rtArr es' (csV e n).2).1).set pre.length (csV e n).1)) = _
    rw [set_append_len]
    have hl : pre.length + 1 = (pre ++ [(csV e n).1]).length := by simp
    have ha : pre ++ (csV e n).1 :: (rtArr es' (csV e n).2).1 =
        (pre ++ [(csV e n).1]) ++ (rtArr es' (csV e n).2).1 := by simp
    have ha2 : pre ++ (csV e n).1 :: (csArr es' (csV e n).2).1 =
        (pre ++ [(csV e n).1]) ++ (csArr es' (csV e n).2).1 := by simp
    rw [hl, ha, ha2]
    exact ihres.2

theorem ppfIdx_spec : ∀ (es : List JVal),
    (∀ e ∈ es, MainS e) →
    (∀ e ∈ es, ∀ b subes, e = JVal.arr b subes → ∀ e' ∈ subes, MainS e') →
    wfElems es = true → nafElems es = true →
    ∀ (n : Nat) (pre : List JVal) (ad : Nat),
      ppfIdx pre.length es (.arr ad (pre ++ (rtArr es n).1)) =
        .arr ad (pre ++ (csArr es n).1) := by
  intro es
  induction es with
  | nil => exact fun _ _ _ _ n pre ad => rfl
  | cons e es' ih =>
    intro hes hsub hwf hnaf n pre ad
    have hwfc : (wfV e && wfElems es') = true := hwf
    rw [Bool.and_eq_true] at hwfc
    rcases hwfc with ⟨hwfe, hwfes⟩
    have hnafc : (!isFnB e && nafV e && nafElems es') = true := hnaf
    rw [Bool.and_eq_true, Bool.and_eq_true] at hnafc
    rcases hnafc with ⟨⟨hfn, hnafe⟩, hnafes⟩
    have hnfn : ∀ i, e ≠ .fn i := by
      intro i hh
      subst hh
      exact Bool.noConfusion hfn
    obtain ⟨Re, hrt, hppf⟩ := hes e (by simp) n hwfe hnafe hnfn
    have hrtA : rtArr (e :: es') n =
        (Re :: (rtArr es' (csV e n).2).1, (rtArr es' (csV e n).2).2) := by
      simp [rtArr, hrt]
    have hcsA : csArr (e :: es') n =
        ((csV e n).1 :: (csArr es' (csV e n).2).1, (csArr es' (csV e n).2).2) := rfl
    have ihres := ih (fun e' he' => hes e' (by simp [he']))
      (fun e' he' b subes hb => hsub e' (by simp [he']) b subes hb)
      hwfes hnafes (csV e n).2 (pre ++ [(csV e n).1]) ad
    rw [hrtA, hcsA]
    have hget : getIdxT (JVal.arr ad (pre ++ Re :: (rtArr es' (csV e n).2).1)) pre.length =
        some Re := getElem?_append_len _ _ _
    have hstep : ∀ t1 : JVal,
        t1 = JVal.arr ad (pre ++ (csV e n).1 :: (rtArr es' (csV e n).2).1) →
        ppfIdx (pre.length + 1) es' t1 =
          JVal.arr ad (pre ++ (csV e n).1 :: (csArr es' (csV e n).2).1) := by
      intro t1 ht1
      subst ht1
      have hl : pre.length + 1 = (pre ++ [(csV e n).1]).length := by simp
      have ha : pre ++ (csV e n).1 :: (rtArr es' (csV e n).2).1 =
          (pre ++ [(csV e n).1]) ++ (rtArr es' (csV e n).2).1 := by simp
      have ha2 : pre ++ (csV e n).1 :: (csArr es' (csV e n).2).1 =
          (pre ++ [(csV e n).1]) ++ (csArr es' (csV e n).2).1 := by simp
      rw [hl, ha, ha2]
      exact ihres
    cases e with
    | fn i => exact absurd rfl (hnfn i)
    | null =>
      have h1 : Re = JVal.null ∧ (csV JVal.null n).2 = n := by
        rw [show rtV JVal.null n = some (JVal.null, n) from rfl] at hrt
        simp only [Option.some.injEq, Prod.mk.injEq] at hrt
        exact ⟨hrt.1.symm, hrt.2.symm⟩
      show ppfIdx (pre.length + 1) es' _ = _
      exact hstep _ (by rw [h1.1, show (csV JVal.null n).1 = JVal.null from rfl])
    | boolv b =>
      have h1 : Re = JVal.boolv b := by
        rw [show rtV (JVal.boolv b) n = some (JVal.boolv b, n) from rfl] at hrt
        simp only [Option.some.injEq, Prod.mk.injEq] at hrt
        exact hrt.1.symm
      show ppfIdx (pre.length + 1) es' _ = _
      exact hstep _ (by rw [h1, show (csV (JVal.boolv b) n).1 = JVal.boolv b from rfl])
    | num q =>
      have h1 : Re = JVal.num q := by
        rw [show rtV (JVal.num q) n = some (JVal.num q, n) from rfl] at hrt
        simp only [Option.some.injEq, Prod.mk.injEq] at hrt
        exact hrt.1.symm
      show ppfIdx (pre.length + 1) es' _ = _
      exact hstep _ (by rw [h1, show (csV (JVal.num q) n).1 = JVal.num q from rfl])
    | str sv =>
      have h1 : Re = JVal.str sv := by
        rw [show rtV (JVal.str sv) n = some (JVal.str sv, n) from rfl] at hrt
        simp only [Option.some.injEq, Prod.mk.injEq] at hrt
        exact hrt.1.symm
      show ppfIdx (pre.length + 1) es' _ = _
      exact hstep _ (by rw [h1, show (csV (JVal.str sv) n).1 = JVal.str sv from rfl])
    | arr b subes =>
      have hre : Re = JVal.arr n (rtArr subes (n + 1)).1 := by
        rw [show rtV (JVal.arr b subes) n =
            some (JVal.arr n (rtArr subes (n + 1)).1, (rtArr subes (n + 1)).2) from by
          simp [rtV]] at hrt
        simp only [Option.some.injEq, Prod.mk.injEq] at hrt
        exact hrt.1.symm
      have hlb := ppfElems_spec subes
        (hsub _ (by simp) b subes rfl) hwfe hnafe (n + 1) [] n
      have hinner : ppfElems 0 subes Re = (csV (JVal.arr b subes) n).1 := by
        rw [hre]
        have := hlb.2
        simpa using this
      show ppfIdx pre.length (JVal.arr b subes :: es') _ = _
      simp only [ppfIdx, hget]
      rw [hinner]
      exact hstep _ (by simp only [setIdxT]; rw [set_append_len])
    | obj oa ops =>
      have hinner : ppfProps ops Re = (csV (JVal.obj oa ops) n).1 := hppf
      show ppfIdx pre.length (JVal.obj oa ops :: es') _ = _
      simp only [ppfIdx, hget]
      rw [hinner]
      exact hstep _ (by simp only [setIdxT]; rw [set_append_len])

theorem keysOf_append (X Y : List (String × JVal)) :
    keysOf (X ++ Y) = keysOf X ++ keysOf Y := by simp [keysOf]

theorem keysOf_cons (k : String) (v : JVal) (ps : List (String × JVal)) :
    keysOf ((k, v) :: ps) = k :: keysOf ps := rfl

theorem ppfProps_spec : ∀ (ps : List (String × JVal)),
    (∀ kv ∈ ps, MainS kv.2) →
    (∀ kv ∈ ps, ∀ b subes, kv.2 = JVal.arr b subes → ∀ e' ∈ subes, MainS e') →
    wfProps ps = true → nafProps ps = true →
    ∀ (n : Nat) (A F : List (String × JVal)) (ad : Nat),
      (∀ k ∈ keysOf ps, k ∉ keysOf A) →
      (∀ k ∈ keysOf ps, k ∉ keysOf F) →
      (rtObj ps n).2 = (csProps ps n).2 ∧
      ppfProps ps (.obj ad (A ++ (rtObj ps n).1 ++ F)) =
        .obj ad (A ++ (csProps ps n).1 ++ (F ++ fnPropsOf ps)) := by
  intro ps
  induction ps with
  | nil =>
    intro _ _ _ _ n A F ad _ _
    exact ⟨rfl, by simp [rtObj, csProps, ppfProps, fnPropsOf]⟩
  | cons p ps' ih =>
    rcases p with ⟨k, v⟩
    intro hes hsub hwf hnaf n A F ad hA hF
    have hwfc : (!(ps'.map Prod.fst).contains k && wfV v && wfProps ps') = true := hwf
    rw [Bool.and_eq_true, Bool.and_eq_true] at hwfc
    rcases hwfc with ⟨⟨hkeyb, hwfv⟩, hwfps⟩
    have hnafc : (nafV v && nafProps ps') = true := hnaf
    rw [Bool.and_eq_true] at hnafc
    rcases hnafc with ⟨hnafv, hnafps⟩
    have hknotin : k ∉ keysOf ps' := by simpa [keysOf] using hkeyb
    have hAk : k ∉ keysOf A := hA k (by simp [keysOf_cons])
    have hFk : k ∉ keysOf F := hF k (by simp [keysOf_cons])
    have hA' : ∀ k' ∈ keysOf ps', k' ∉ keysOf A := fun k' hk' =>
      hA k' (by rw [keysOf_cons]; exact List.mem_cons.mpr (Or.inr hk'))
    have hF' : ∀ k' ∈ keysOf ps', k' ∉ keysOf F := fun k' hk' =>
      hF k' (by rw [keysOf_cons]; exact List.mem_cons.mpr (Or.inr hk'))
    have hne : ∀ k' ∈ keysOf ps', k' ≠ k := fun k' hk' hh => hknotin (hh ▸ hk')
    have hes' : ∀ kv ∈ ps', MainS kv.2 := fun kv hkv => hes kv (by simp [hkv])
    have hsub' : ∀ kv ∈ ps', ∀ b subes, kv.2 = JVal.arr b subes → ∀ e' ∈ subes, MainS e' :=
      fun kv hkv b subes hb => hsub kv (by simp [hkv]) b subes hb
    cases v with
    | fn fid =>
      have hrtO : rtObj ((k, JVal.fn fid) :: ps') n = rtObj ps' n := by
        simp [rtObj, rtV]
      have hcsO : csProps ((k, JVal.fn fid) :: ps') n = csProps ps' n := by
        simp [csProps, isFnB]
      have hfnP : fnPropsOf ((k, JVal.fn fid) :: ps') =
          (k, JVal.fn fid) :: fnPropsOf ps' := by
        simp [fnPropsOf, isFnB]
      have hFnew : ∀ k' ∈ keysOf ps', k' ∉ keysOf (F ++ [(k, JVal.fn fid)]) := by
        intro k' hk' hm
        rw [keysOf_append] at hm
        rcases List.mem_append.mp hm with hm | hm
        · exact hF' k' hk' hm
        · exact hne k' hk' (by simpa [keysOf] using hm)
      have ihres := ih hes' hsub' hwfps hnafps n A (F ++ [(k, JVal.fn fid)]) ad hA' hFnew
      rw [hrtO, hcsO, hfnP]
      refine ⟨ihres.1, ?_⟩
      have hkrt : k ∉ keysOf (rtObj ps' n).1 := fun hm => hknotin (keysOf_rtObj ps' n k hm)
      have hknot : k ∉ keysOf (A ++ (rtObj ps' n).1 ++ F) := by
        intro hm
        rw [keysOf_append, keysOf_append] at hm
        rcases List.mem_append.mp hm with hm | hm
        · rcases List.mem_append.mp hm with hm | hm
          · exact hAk hm
          · exact hkrt hm
        · exact hFk hm
      show ppfProps ps'
          (setKeyT (JVal.obj ad (A ++ (rtObj ps' n).1 ++ F)) k (JVal.fn fid)) = _
      show ppfProps ps'
          (JVal.obj ad (setProp (A ++ (rtObj ps' n).1 ++ F) k (JVal.fn fid))) = _
      rw [setProp_not_mem _ _ _ hknot]
      have hre : (A ++ (rtObj ps' n).1 ++ F) ++ [(k, JVal.fn fid)] =
          A ++ (rtObj ps' n).1 ++ (F ++ [(k, JVal.fn fid)]) := by
        simp
      rw [hre, ihres.2]
      have hre2 : (F ++ [(k, JVal.fn fid)]) ++ fnPropsOf ps' =
          F ++ ((k, JVal.fn fid) :: fnPropsOf ps') := by
        simp
      rw [hre2]
    | null =>
      have hrtO : rtObj ((k, JVal.null) :: ps') n =
          ((k, JVal.null) :: (rtObj ps' n).1, (rtObj ps' n).2) := by
        simp [rtObj, rtV]
      have hcsO : csProps ((k, JVal.null) :: ps') n =
          ((k, JVal.null) :: (csProps ps' n).1, (csProps ps' n).2) := rfl
      have hfnP : fnPropsOf ((k, JVal.null) :: ps') = fnPropsOf ps' := by
        simp [fnPropsOf, isFnB]
      have hAnew : ∀ k' ∈ keysOf ps', k' ∉ keysOf (A ++ [(k, JVal.null)]) := by
        intro k' hk' hm
        rw [keysOf_append] at hm
        rcases List.mem_append.mp hm with hm | hm
        · exact hA' k' hk' hm
        · exact hne k' hk' (by simpa [keysOf] using hm)
      have ihres := ih hes' hsub' hwfps hnafps n (A ++ [(k, JVal.null)]) F ad hAnew hF'
      rw [hrtO, hcsO, hfnP]
      refine ⟨ihres.1, ?_⟩
      show ppfProps ps'
          (JVal.obj ad (A ++ (k, JVal.null) :: (rtObj ps' n).1 ++ F)) = _
      have hre : A ++ (k, JVal.null) :: (rtObj ps' n).1 =
          (A ++ [(k, JVal.null)]) ++ (rtObj ps' n).1 := by simp
      have hre2 : A ++ (k, JVal.null) :: (csProps ps' n).1 =
          (A ++ [(k, JVal.null)]) ++ (csProps ps' n).1 := by simp
      rw [hre, hre2]
      exact ihres.2
    | boolv bb =>
      have hrtO : rtObj ((k, JVal.boolv bb) :: ps') n =
          ((k, JVal.boolv bb) :: (rtObj ps' n).1, (rtObj ps' n).2) := by
        simp [rtObj, rtV]
      have hcsO : csProps ((k, JVal.boolv bb) :: ps') n =
          ((k, JVal.boolv bb) :: (csProps ps' n).1, (csProps ps' n).2) := rfl
      have hfnP : fnPropsOf ((k, JVal.boolv bb) :: ps') = fnPropsOf ps' := by
        simp [fnPropsOf, isFnB]
      have hAnew : ∀ k' ∈ keysOf ps', k' ∉ keysOf (A ++ [(k, JVal.boolv bb)]) := by
        intro k' hk' hm
        rw [keysOf_append] at hm
        rcases List.mem_append.mp hm with hm | hm
        · exact hA' k' hk' hm
        · exact hne k' hk' (by simpa [keysOf] using hm)
      have ihres := ih hes' hsub' hwfps hnafps n (A ++ [(k, JVal.boolv bb)]) F ad hAnew hF'
      rw [hrtO, hcsO, hfnP]
      refine ⟨ihres.1, ?_⟩
      show ppfProps ps'
          (JVal.obj ad (A ++ (k, JVal.boolv bb) :: (rtObj ps' n).1 ++ F)) = _
      have hre : A ++ (k, JVal.boolv bb) :: (rtObj ps' n).1 =
          (A ++ [(k, JVal.boolv bb)]) ++ (rtObj ps' n).1 := by simp
      have hre2 : A ++ (k, JVal.boolv bb) :: (csProps ps' n).1 =
          (A ++ [(k, JVal.boolv bb)]) ++ (csProps ps' n).1 := by simp
      rw [hre, hre2]
      exact ihres.2
    | num q =>
      have hrtO : rtObj ((k, JVal.num q) :: ps') n =
          ((k, JVal.num q) :: (rtObj ps' n).1, (rtObj ps' n).2) := by
        simp [rtObj, rtV]
      have hcsO : csProps ((k, JVal.num q) :: ps') n =
          ((k, JVal.num q) :: (csProps ps' n).1, (csProps ps' n).2) := rfl
      have hfnP : fnPropsOf ((k, JVal.num q) :: ps') = fnPropsOf ps' := by
        simp [fnPropsOf, isFnB]
      have hAnew : ∀ k' ∈ keysOf ps', k' ∉ keysOf (A ++ [(k, JVal.num q)]) := by
        intro k' hk' hm
        rw [keysOf_append] at hm
        rcases List.mem_append.mp hm with hm | hm
        · exact hA' k' hk' hm
        · exact hne k' hk' (by simpa [keysOf] using hm)
      have ihres := ih hes' hsub' hwfps hnafps n (A ++ [(k, JVal.num q)]) F ad hAnew hF'
      rw [hrtO, hcsO, hfnP]
      refine ⟨ihres.1, ?_⟩
      show ppfProps ps'
          (JVal.obj ad (A ++ (k, JVal.num q) :: (rtObj ps' n).1 ++ F)) = _
      have hre : A ++ (k, JVal.num q) :: (rtObj ps' n).1 =
          (A ++ [(k, JVal.num q)]) ++ (rtObj ps' n).1 := by simp
      have hre2 : A ++ (k, JVal.num q) :: (csProps ps' n).1 =
          (A ++ [(k, JVal.num q)]) ++ (csProps ps' n).1 := by simp
      rw [hre, hre2]
      exact ihres.2
    | str sv =>
      have hrtO : rtObj ((k, JVal.str sv) :: ps') n =
          ((k, JVal.str sv) :: (rtObj ps' n).1, (rtObj ps' n).2) := by
        simp [rtObj, rtV]
      have hcsO : csProps ((k, JVal.str sv) :: ps') n =
          ((k, JVal.str sv) :: (csProps ps' n).1, (csProps ps' n).2) := rfl
      have hfnP : fnPropsOf ((k, JVal.str sv) :: ps') = fnPropsOf ps' := by
        simp [fnPropsOf, isFnB]
      have hAnew : ∀ k' ∈ keysOf ps', k' ∉ keysOf (A ++ [(k, JVal.str sv)]) := by
        intro k' hk' hm
        rw [keysOf_append] at hm
        rcases List.mem_append.mp hm with hm | hm
        · exact hA' k' hk' hm
        · exact hne k' hk' (by simpa [keysOf] using hm)
      have ihres := ih hes' hsub' hwfps hnafps n (A ++ [(k, JVal.str sv)]) F ad hAnew hF'
      rw [hrtO, hcsO, hfnP]
      refine ⟨ihres.1, ?_⟩
      show ppfProps ps'
          (JVal.obj ad (A ++ (k, JVal.str sv) :: (rtObj ps' n).1 ++ F)) = _
      have hre : A ++ (k, JVal.str sv) :: (rtObj ps' n).1 =
          (A ++ [(k, JVal.str sv)]) ++ (rtObj ps' n).1 := by simp
      have hre2 : A ++ (k, JVal.str sv) :: (csProps ps' n).1 =
          (A ++ [(k, JVal.str sv)]) ++ (csProps ps' n).1 := by simp
      rw [hre, hre2]
      exact ihres.2
    | arr b subes =>
      obtain ⟨Re, hrt, hppf⟩ := hes (k, JVal.arr b subes) (by simp) n hwfv hnafv
        (fun i h => JVal.noConfusion h)
      have hre : Re = JVal.arr n (rtArr subes (n + 1)).1 := by
        rw [show rtV (JVal.arr b subes) n =
            some (JVal.arr n (rtArr subes (n + 1)).1, (rtArr subes (n + 1)).2) from by
          simp [rtV]] at hrt
        simp only [Option.some.injEq, Prod.mk.injEq] at hrt
        exact hrt.1.symm
      have hwfe : wfElems subes = true := hwfv
      have hnafe : nafElems subes = true := hnafv
      have hlb := ppfElems_spec subes
        (hsub (k, JVal.arr b subes) (by simp) b subes rfl) hwfe hnafe (n + 1) [] n
      have hinner : ppfElems 0 subes Re = (csV (JVal.arr b subes) n).1 := by
        rw [hre]
        simpa using hlb.2
      have hrtO : rtObj ((k, JVal.arr b subes) :: ps') n =
          ((k, Re) :: (rtObj ps' (csV (JVal.arr b subes) n).2).1,
            (rtObj ps' (csV (JVal.arr b subes) n).2).2) := by
        simp [rtObj, hrt]
      have hcsO : csProps ((k, JVal.arr b subes) :: ps') n =
          ((k, (csV (JVal.arr b subes) n).1) ::
              (csProps ps' (csV (JVal.arr b subes) n).2).1,
            (csProps ps' (csV (JVal.arr b subes) n).2).2) := rfl
      have hfnP : fnPropsOf ((k, JVal.arr b subes) :: ps') = fnPropsOf ps' := by
        simp [fnPropsOf, isFnB]
      have hAnew : ∀ k' ∈ keysOf ps',
          k' ∉ keysOf (A ++ [(k, (csV (JVal.arr b subes) n).1)]) := by
        intro k' hk' hm
        rw [keysOf_append] at hm
        rcases List.mem_append.mp hm with hm | hm
        · exact hA' k' hk' hm
        · exact hne k' hk' (by simpa [keysOf] using hm)
      have ihres := ih hes' hsub' hwfps hnafps (csV (JVal.arr b subes) n).2
        (A ++ [(k, (csV (JVal.arr b subes) n).1)]) F ad hAnew hF'
      rw [hrtO, hcsO, hfnP]
      refine ⟨ihres.1, ?_⟩
      have hassoc : A ++ (k, Re) :: (rtObj ps' (csV (JVal.arr b subes) n).2).1 ++ F =
          A ++ ((k, Re) :: ((rtObj ps' (csV (JVal.arr b subes) n).2).1 ++ F)) := by
        simp
      have hget : getKeyT (JVal.obj ad
          (A ++ (k, Re) :: (rtObj ps' (csV (JVal.arr b subes) n).2).1 ++ F)) k =
          some Re := by
        show getProp (A ++ (k, Re) :: (rtObj ps' (csV (JVal.arr b subes) n).2).1 ++ F) k =
          some Re
        rw [hassoc, getProp_append_not_mem A _ k hAk]
        simp [getProp]
      simp only [ppfProps, hget]
      rw [hinner]
      show ppfProps ps' (JVal.obj ad (setProp
          (A ++ (k, Re) :: (rtObj ps' (csV (JVal.arr b subes) n).2).1 ++ F) k
          (csV (JVal.arr b subes) n).1)) = _
      rw [hassoc, setProp_append_not_mem A _ k _ hAk, setProp_cons_self]
      have hback : A ++ ((k, (csV (JVal.arr b subes) n).1) ::
            ((rtObj ps' (csV (JVal.arr b subes) n).2).1 ++ F)) =
          (A ++ [(k, (csV (JVal.arr b subes) n).1)]) ++
            (rtObj ps' (csV (JVal.arr b subes) n).2).1 ++ F := by
        simp
      rw [hback, ihres.2]
      have hre2 : A ++ (k, (csV (JVal.arr b subes) n).1) ::
            (csProps ps' (csV (JVal.arr b subes) n).2).1 =
          (A ++ [(k, (csV (JVal.arr b subes) n).1)]) ++
            (csProps ps' (csV (JVal.arr b subes) n).2).1 := by
        simp
      rw [hre2]
    | obj oa ops =>
      obtain ⟨Re, hrt, hppf⟩ := hes (k, JVal.obj oa ops) (by simp) n hwfv hnafv
        (fun i h => JVal.noConfusion h)
      have hinner : ppfProps ops Re = (csV (JVal.obj oa ops) n).1 := hppf
      have hrtO : rtObj ((k, JVal.obj oa ops) :: ps') n =
          ((k, Re) :: (rtObj ps' (csV (JVal.obj oa ops) n).2).1,
            (rtObj ps' (csV (JVal.obj oa ops) n).2).2) := by
        simp [rtObj, hrt]
      have hcsO : csProps ((k, JVal.obj oa ops) :: ps') n =
          ((k, (csV (JVal.obj oa ops) n).1) ::
              (csProps ps' (csV (JVal.obj oa ops) n).2).1,
            (csProps ps' (csV (JVal.obj oa ops) n).2).2) := rfl
      have hfnP : fnPropsOf ((k, JVal.obj oa ops) :: ps') = fnPropsOf ps' := by
        simp [fnPropsOf, isFnB]
      have hAnew : ∀ k' ∈ keysOf ps',
          k' ∉ keysOf (A ++ [(k, (csV (JVal.obj oa ops) n).1)]) := by
        intro k' hk' hm
        rw [keysOf_append] at hm
        rcases List.mem_append.mp hm with hm | hm
        · exact hA' k' hk' hm
        · exact hne k' hk' (by simpa [keysOf] using hm)
      have ihres := ih hes' hsub' hwfps hnafps (csV (JVal.obj oa ops) n).2
        (A ++ [(k, (csV (JVal.obj oa ops) n).1)]) F ad hAnew hF'
      rw [hrtO, hcsO, hfnP]
      refine ⟨ihres.1, ?_⟩
      have hassoc : A ++ (k, Re) :: (rtObj ps' (csV (JVal.obj oa ops) n).2).1 ++ F =
          A ++ ((k, Re) :: ((rtObj ps' (csV (JVal.obj oa ops) n).2).1 ++ F)) := by
        simp
      have hget : getKeyT (JVal.obj ad
          (A ++ (k, Re) :: (rtObj ps' (csV (JVal.obj oa ops) n).2).1 ++ F)) k =
          some Re := by
        show getProp (A ++ (k, Re) :: (rtObj ps' (csV (JVal.obj oa ops) n).2).1 ++ F) k =
          some Re
        rw [hassoc, getProp_append_not_mem A _ k hAk]
        simp [getProp]
      simp only [ppfProps, hget]
      rw [hinner]
      show ppfProps ps' (JVal.obj ad (setProp
          (A ++ (k, Re) :: (rtObj ps' (csV (JVal.obj oa ops) n).2).1 ++ F) k
          (csV (JVal.obj oa ops) n).1)) = _
      rw [hassoc, setProp_append_not_mem A _ k _ hAk, setProp_cons_self]
      have hback : A ++ ((k, (csV (JVal.obj oa ops) n).1) ::
            ((rtObj ps' (csV (JVal.obj oa ops) n).2).1 ++ F)) =
          (A ++ [(k, (csV (JVal.obj oa ops) n).1)]) ++
            (rtObj ps' (csV (JVal.obj oa ops) n).2).1 ++ F := by
        simp
      rw [hback, ihres.2]
      have hre2 : A ++ (k, (csV (JVal.obj oa ops) n).1) ::
            (csProps ps' (csV (JVal.obj oa ops) n).2).1 =
          (A ++ [(k, (csV (JVal.obj oa ops) n).1)]) ++
            (csProps ps' (csV (JVal.obj oa ops) n).2).1 := by
        simp
      rw [hre2]

theorem mainS_all : ∀ (N : Nat) (v : JVal), sizeOf v ≤ N → MainS v := by
  intro N
  induction N with
  | zero =>
    intro v hv
    exact absurd hv (by cases v <;> simp)
  | succ N ihN =>
    intro v hv
    cases v with
    | null => exact fun n _ _ _ => ⟨JVal.null, rfl, rfl⟩
    | boolv b => exact fun n _ _ _ => ⟨JVal.boolv b, rfl, rfl⟩
    | num q => exact fun n _ _ _ => ⟨JVal.num q, rfl, rfl⟩
    | str s => exact fun n _ _ _ => ⟨JVal.str s, rfl, rfl⟩
    | fn i => exact fun n _ _ hnfn => absurd rfl (hnfn i)
    | arr b es =>
      intro n hwf hnaf _
      have hsz : sizeOf (JVal.arr b es) = 1 + sizeOf b + sizeOf es := by simp
      have hes : ∀ e ∈ es, MainS e := by
        intro e he
        refine ihN e ?_
        have h1 := List.sizeOf_lt_of_mem he
        omega
      have hsub : ∀ e ∈ es, ∀ b' subes, e = JVal.arr b' subes →
          ∀ e' ∈ subes, MainS e' := by
        intro e he b' subes hb e' he'
        refine ihN e' ?_
        subst hb
        have h1 := List.sizeOf_lt_of_mem he
        have h1' := List.sizeOf_lt_of_mem he'
        have h3 : sizeOf (JVal.arr b' subes) = 1 + sizeOf b' + sizeOf subes := by simp
        omega
      have hwfe : wfElems es = true := hwf
      have hnafe : nafElems es = true := hnaf
      have hcnt := (ppfElems_spec es hes hwfe hnafe (n + 1) [] n).1
      refine ⟨JVal.arr n (rtArr es (n + 1)).1, ?_, ?_⟩
      · rw [show rtV (JVal.arr b es) n =
            some (JVal.arr n (rtArr es (n + 1)).1, (rtArr es (n + 1)).2) from rfl, hcnt]
        rfl
      · have hidx := ppfIdx_spec es hes hsub hwfe hnafe (n + 1) [] n
        show ppfIdx 0 es (JVal.arr n (rtArr es (n + 1)).1) = (csV (JVal.arr b es) n).1
        simpa using hidx
    | obj oa ps =>
      intro n hwf hnaf _
      have hsz : sizeOf (JVal.obj oa ps) = 1 + sizeOf oa + sizeOf ps := by simp
      have hes : ∀ kv ∈ ps, MainS kv.2 := by
        intro kv hkv
        rcases kv with ⟨kk, vv⟩
        refine ihN vv ?_
        have h1 := List.sizeOf_lt_of_mem hkv
        have h3 : sizeOf (kk, vv) = 1 + sizeOf kk + sizeOf vv := by simp
        omega
      have hsub : ∀ kv ∈ ps, ∀ b' subes, kv.2 = JVal.arr b' subes →
          ∀ e' ∈ subes, MainS e' := by
        intro kv hkv b' subes hb e' he'
        rcases kv with ⟨kk, vv⟩
        refine ihN e' ?_
        simp only at hb
        subst hb
        have h1 := List.sizeOf_lt_of_mem hkv
        have h1' := List.sizeOf_lt_of_mem he'
        have h3 : sizeOf (kk, JVal.arr b' subes) =
            1 + sizeOf kk + (1 + sizeOf b' + sizeOf subes) := by simp
        omega
      have hwfp : wfProps ps = true := hwf
      have hnafp : nafProps ps = true := hnaf
      have hspec := ppfProps_spec ps hes hsub hwfp hnafp (n + 1) [] [] n
        (fun k _ => by simp [keysOf]) (fun k _ => by simp [keysOf])
      refine ⟨JVal.obj n (rtObj ps (n + 1)).1, ?_, ?_⟩
      · rw [show rtV (JVal.obj oa ps) n =
            some (JVal.obj n (rtObj ps (n + 1)).1, (rtObj ps (n + 1)).2) from rfl,
          hspec.1]
        rfl
      · have h2 := hspec.2
        show ppfProps ps (JVal.obj n (rtObj ps (n + 1)).1) = (csV (JVal.obj oa ps) n).1
        show ppfProps ps (JVal.obj n (rtObj ps (n + 1)).1) =
          JVal.obj n ((csProps ps (n + 1)).1 ++ fnPropsOf ps)
        simpa using h2

theorem mainS (v : JVal) : MainS v := mainS_all (sizeOf v) v (le_refl _)

theorem adV_isFn (v : JVal) (h : isFnB v = true) : adV v = [] := by
  cases v <;> simp [isFnB] at h <;> rfl

theorem adProps_append (X Y : List (String × JVal)) :
    adProps (X ++ Y) = adProps X ++ adProps Y := by
  induction X with
  | nil => rfl
  | cons p ps ih =>
    rcases p with ⟨k, v⟩
    show adV v ++ adProps (ps ++ Y) = (adV v ++ adProps ps) ++ adProps Y
    rw [ih, List.append_assoc]

theorem adProps_fnPropsOf (ps : List (String × JVal)) :
    adProps (fnPropsOf ps) = [] := by
  induction ps with
  | nil => rfl
  | cons p ps ih =>
    rcases p with ⟨k, v⟩
    by_cases hf : isFnB v = true
    · rw [show fnPropsOf ((k, v) :: ps) = (k, v) :: fnPropsOf ps from by
        simp [fnPropsOf, List.filter_cons, hf]]
      show adV v ++ adProps (fnPropsOf ps) = []
      rw [adV_isFn v hf, ih]
      rfl
    · rw [show fnPropsOf ((k, v) :: ps) = fnPropsOf ps from by
        simp [fnPropsOf, List.filter_cons, hf]]
      exact ih

theorem csCounterGe : ∀ (N : Nat),
    (∀ v : JVal, sizeOf v ≤ N → ∀ n : Nat, n ≤ (csV v n).2) ∧
    (∀ es : List JVal, sizeOf es ≤ N → ∀ n : Nat, n ≤ (csArr es n).2) ∧
    (∀ ps : List (String × JVal), sizeOf ps ≤ N → ∀ n : Nat, n ≤ (csProps ps n).2) := by
  intro N
  induction N with
  | zero =>
    refine ⟨?_, ?_, ?_⟩ <;> intro x hx
    · exact absurd hx (by cases x <;> simp)
    · exact absurd hx (by cases x <;> simp)
    · exact absurd hx (by cases x <;> simp)
  | succ N ihN =>
    obtain ⟨ihV, ihA, ihP⟩ := ihN
    refine ⟨?_, ?_, ?_⟩
    · intro v hv n
      cases v with
      | arr b es =>
        show n ≤ (csArr es (n + 1)).2
        have hsz : sizeOf (JVal.arr b es) = 1 + sizeOf b + sizeOf es := by simp
        have h := ihA es (by omega) (n + 1)
        omega
      | obj oa ps =>
        show n ≤ (csProps ps (n + 1)).2
        have hsz : sizeOf (JVal.obj oa ps) = 1 + sizeOf oa + sizeOf ps := by simp
        have h := ihP ps (by omega) (n + 1)
        omega
      | null => exact Nat.le_refl n
      | boolv b => exact Nat.le_refl n
      | num q => exact Nat.le_refl n
      | str s => exact Nat.le_refl n
      | fn i => exact Nat.le_refl n
    · intro es hes n
      cases es with
      | nil => exact Nat.le_refl n
      | cons e es' =>
        show n ≤ (csArr es' (csV e n).2).2
        have hsz : sizeOf (e :: es') = 1 + sizeOf e + sizeOf es' := by simp
        have h1 := ihV e (by omega) n
        have h2 := ihA es' (by omega) (csV e n).2
        omega
    · intro ps hps n
      cases ps with
      | nil => exact Nat.le_refl n
      | cons p ps' =>
        rcases p with ⟨k, v⟩
        have hsz : sizeOf ((k, v) :: ps') = 1 + (1 + sizeOf k + sizeOf v) + sizeOf ps' := by
          simp
        by_cases hf : isFnB v = true
        · rw [show csProps ((k, v) :: ps') n = csProps ps' n from by simp [csProps, hf]]
          exact ihP ps' (by omega) n
        · rw [show csProps ((k, v) :: ps') n =
              ((k, (csV v n).1) :: (csProps ps' (csV v n).2).1,
                (csProps ps' (csV v n).2).2) from by simp [csProps, hf]]
          have h1 := ihV v (by omega) n
          have h2 := ihP ps' (by omega) (csV v n).2
          show n ≤ (csProps ps' (csV v n).2).2
          omega

theorem adFresh : ∀ (N : Nat),
    (∀ v : JVal, sizeOf v ≤ N → ∀ n : Nat, ∀ a ∈ adV (csV v n).1, n ≤ a) ∧
    (∀ es : List JVal, sizeOf es ≤ N → ∀ n : Nat, ∀ a ∈ adElems (csArr es n).1, n ≤ a) ∧
    (∀ ps : List (String × JVal), sizeOf ps ≤ N →
      ∀ n : Nat, ∀ a ∈ adProps (csProps ps n).1, n ≤ a) := by
  intro N
  induction N with
  | zero =>
    refine ⟨?_, ?_, ?_⟩ <;> intro x hx
    · exact absurd hx (by cases x <;> simp)
    · exact absurd hx (by cases x <;> simp)
    · exact absurd hx (by cases x <;> simp)
  | succ N ihN =>
    obtain ⟨ihV, ihA, ihP⟩ := ihN
    refine ⟨?_, ?_, ?_⟩
    · intro v hv n a ha
      cases v with
      | arr b es =>
        have hsz : sizeOf (JVal.arr b es) = 1 + sizeOf b + sizeOf es := by simp
        have ha2 : a ∈ n :: adElems (csArr es (n + 1)).1 := ha
        rcases List.mem_cons.mp ha2 with h | h
        · omega
        · have := ihA es (by omega) (n + 1) a h
          omega
      | obj oa ps =>
        have hsz : sizeOf (JVal.obj oa ps) = 1 + sizeOf oa + sizeOf ps := by simp
        have ha2 : a ∈ n :: adProps ((csProps ps (n + 1)).1 ++ fnPropsOf ps) := ha
        rw [adProps_append, adProps_fnPropsOf, List.append_nil] at ha2
        rcases List.mem_cons.mp ha2 with h | h
        · omega
        · have := ihP ps (by omega) (n + 1) a h
          omega
      | null => exact absurd ha (by simp [csV, adV])
      | boolv b => exact absurd ha (by simp [csV, adV])
      | num q => exact absurd ha (by simp [csV, adV])
      | str s => exact absurd ha (by simp [csV, adV])
      | fn i => exact absurd ha (by simp [csV, adV])
    · intro es hes n a ha
      cases es with
      | nil => exact absurd ha (by simp [csArr, adElems])
      | cons e es' =>
        have hsz : sizeOf (e :: es') = 1 + sizeOf e + sizeOf es' := by simp
        have ha2 : a ∈ adV (csV e n).1 ++ adElems (csArr es' (csV e n).2).1 := ha
        rcases List.mem_append.mp ha2 with h | h
        · exact ihV e (by omega) n a h
        · have hmono := (csCounterGe (sizeOf e)).1 e (le_refl _) n
          have := ihA es' (by omega) (csV e n).2 a h
          omega
    · intro ps hps n a ha
      cases ps with
      | nil => exact absurd ha (by simp [csProps, adProps])
      | cons p ps' =>
        rcases p with ⟨k, v⟩
        have hsz : sizeOf ((k, v) :: ps') = 1 + (1 + sizeOf k + sizeOf v) + sizeOf ps' := by
          simp
        by_cases hf : isFnB v = true
        · rw [show (csProps ((k, v) :: ps') n).1 = (csProps ps' n).1 from by
            simp [csProps, hf]] at ha
          exact ihP ps' (by omega) n a ha
        · rw [show (csProps ((k, v) :: ps') n).1 =
              (k, (csV v n).1) :: (csProps ps' (csV v n).2).1 from by
            simp [csProps, hf]] at ha
          have ha2 : a ∈ adV (csV v n).1 ++ adProps (csProps ps' (csV v n).2).1 := ha
          rcases List.mem_append.mp ha2 with h | h
          · exact ihV v (by omega) n a h
          · have hmono := (csCounterGe (sizeOf v)).1 v (le_refl _) n
            have := ihP ps' (by omega) (csV v n).2 a h
            omega

theorem clone_eq_spec_aux (v : JVal) (n : Nat) (hwf : wfV v = true)
    (hnaf : nafV v = true) (hnfn : ∀ i, v ≠ JVal.fn i)
    (hcs : cloneSpec n v = some (csV v n).1) :
    clone n v = cloneSpec n v ∧
    ∀ R, clone n v = some R → ∀ a ∈ adV R, n ≤ a := by
  obtain ⟨Re, hrt, hppf⟩ := mainS v n hwf hnaf hnfn
  have h1 : clone n v = cloneSpec n v := by
    rw [hcs]
    show (match rtV v n with | none => none | some p => some (ppf v p.1)) = _
    rw [hrt]
    show some (ppf v Re) = _
    rw [hppf]
  refine ⟨h1, ?_⟩
  intro R hR
  rw [h1, hcs] at hR
  injection hR with h2
  exact h2 ▸ (adFresh (sizeOf v)).1 v (le_refl _) n

/-- C1 counterexample: cloning `{arr: [f]}` (a function stored as a direct
array element) does NOT restore the function: `JSON.stringify` serialises it
to `null`, and the reattachment pass recurses into the element with
`processPropertyIsFunction(item, target.arr[index])`, whose function branch
only fires for function-valued *properties* of an object source — a function
*source* itself hits the non-object early exit and is left as `null`. The
clone therefore carries `null` where the claim requires the identical
function. -/
theorem c1_counterexample_array_function_lost :
    clone 10 (JVal.obj 0 [("arr", JVal.arr 1 [JVal.fn 5])]) =
      some (JVal.obj 10 [("arr", JVal.arr 11 [JVal.null])]) ∧
    JVal.null ≠ JVal.fn 5 :=
  ⟨rfl, fun h => JVal.noConfusion h⟩

/-- C1 (amended): on every well-formed input (`wfV`: no duplicate keys) in
which no function value sits as a direct element of an array (`nafV`),
`clone` returns exactly the structure promised by the claim (`cloneSpec`):
all non-function leaves value-equal, every function-valued property at any
depth — including inside objects nested in arrays — reference-identical
(same `fn` id, with an object's function properties reattached after its
other properties), and every container rebuilt at a fresh address drawn
from the supply at `n`, hence reference-distinct from every source
container (whose addresses can be taken below `n`). A top-level function
makes `JSON.parse` throw, which both sides render as `none`. -/
theorem c1_clone_restores_functions_and_refreshes_containers
    (v : JVal) (n : Nat) (hwf : wfV v = true) (hnaf : nafV v = true) :
    clone n v = cloneSpec n v ∧
    ∀ R, clone n v = some R → ∀ a ∈ adV R, n ≤ a := by
  cases v with
  | fn i => exact ⟨rfl, fun R hR => Option.noConfusion hR⟩
  | null => exact clone_eq_spec_aux _ n hwf hnaf (fun i h => JVal.noConfusion h) rfl
  | boolv b => exact clone_eq_spec_aux _ n hwf hnaf (fun i h => JVal.noConfusion h) rfl
  | num q => exact clone_eq_spec_aux _ n hwf hnaf (fun i h => JVal.noConfusion h) rfl
  | str s => exact clone_eq_spec_aux _ n hwf hnaf (fun i h => JVal.noConfusion h) rfl
  | arr b es => exact clone_eq_spec_aux _ n hwf hnaf (fun i h => JVal.noConfusion h) rfl
  | obj oa ps => exact clone_eq_spec_aux _ n hwf hnaf (fun i h => JVal.noConfusion h) rfl

/-- C1 witness: the spec's own example `{a: 1, f: function(){}, arr: [{g:
function(){}}]}` — the amended theorem applies and the clone is the claimed
structure, with `f` and `g` carried over identically and fresh container
addresses. -/
theorem c1_clone_restores_functions_witness :
    wfV (JVal.obj 0 [("a", JVal.num ⟨1, 0⟩), ("f", JVal.fn 7),
        ("arr", JVal.arr 1 [JVal.obj 2 [("g", JVal.fn 9)]])]) = true ∧
    nafV (JVal.obj 0 [("a", JVal.num ⟨1, 0⟩), ("f", JVal.fn 7),
        ("arr", JVal.arr 1 [JVal.obj 2 [("g", JVal.fn 9)]])]) = true ∧
    clone 10 (JVal.obj 0 [("a", JVal.num ⟨1, 0⟩), ("f", JVal.fn 7),
        ("arr", JVal.arr 1 [JVal.obj 2 [("g", JVal.fn 9)]])]) =
      cloneSpec 10 (JVal.obj 0 [("a", JVal.num ⟨1, 0⟩), ("f", JVal.fn 7),
        ("arr", JVal.arr 1 [JVal.obj 2 [("g", JVal.fn 9)]])]) :=
  ⟨rfl, rfl,
    (c1_clone_restores_functions_and_refreshes_containers
      (JVal.obj 0 [("a", JVal.num ⟨1, 0⟩), ("f", JVal.fn 7),
        ("arr", JVal.arr 1 [JVal.obj 2 [("g", JVal.fn 9)]])]) 10 rfl rfl).1⟩
